import Mathlib

/-!
Verification development for go-orphan-tracker (`cmd/root.go`).

The program ingests canonical-head and side-head events from an Ethereum
node, stores header and transaction rows in a relational store, and keeps
an "at most one canonical header per height" discipline via selective
upserts and bulk demotions.

We embed the data model (`Header`, `Tx`, the store), the normalizers
(`appHeader`, `appTx`), the upsert engine (`Header.CreateOrUpdate`), the
event handlers (`handleHeader` and the three event-loop branches) as pure
Lean functions, and prove or refute the specified properties.

Conventions of the embedding:
* Go `uint64` values are `Nat`s; where Go wraps (`big.Int.Uint64()`,
  `uint64` subtraction) we take the value mod `2^64` explicitly.
* 32-byte digests and 20-byte addresses on the wire are `Nat`s (their
  big-endian integer value); rendering to `0x...` strings is modelled
  after `go-ethereum`'s `hexutil`/`common` encoders.
* The keccak256 digest used only by the EIP-55 address checksum is a
  parameter (`keccak cs i` = the i-th nibble of the digest of `cs`); no
  theorem below depends on its value.
* The gorm-managed timestamp columns (`created_at`, `updated_at`,
  `deleted_at`) are store bookkeeping, never read by the program logic,
  and are not modelled; rows are never soft-deleted by this program.
-/

/-- Lowercase hex digit character for `n % 16`, as produced by Go's
`encoding/hex` ('0'-'9', 'a'-'f'). -/
def hexDigit (n : Nat) : Char :=
  if n % 16 < 10 then Char.ofNat (48 + n % 16) else Char.ofNat (87 + n % 16)

/-- Structural worker for `hexDigits` (the fuel argument only makes the
recursion structural; `fuel > n` always suffices since `n / 16 < n`). -/
def hexDigitsAux : Nat → Nat → List Char
  | 0, _ => []
  | fuel + 1, n => if n = 0 then [] else hexDigitsAux fuel (n / 16) ++ [hexDigit (n % 16)]

/-- Minimal-length hex digits of `n` (empty for 0), big-endian: the digit
list produced by `big.Int.Text(16)` for positive inputs. -/
def hexDigits (n : Nat) : List Char := hexDigitsAux (n + 1) n

/-- `hexutil.Big.String()`: `"0x0"` for zero, else `"0x"` plus the
minimal-length lowercase hex digits. -/
def hexutilBigString (n : Nat) : String :=
  if n = 0 then "0x0" else String.mk ('0' :: 'x' :: hexDigits n)

/-- Exactly `width` lowercase hex digits of `n`, zero padded, big-endian:
the encoding `hex.EncodeToString` applies to a fixed-width byte array. -/
def fixedHex : Nat → Nat → List Char
  | 0, _ => []
  | width + 1, n => fixedHex width (n / 16) ++ [hexDigit (n % 16)]

/-- `common.Hash.Hex()`: `"0x"` plus 64 lowercase hex digits. -/
def hashHex (n : Nat) : String :=
  String.mk ('0' :: 'x' :: fixedHex 64 n)

/-- `types.BlockNonce.MarshalText()`: `"0x"` plus 16 lowercase hex digits
(the 8 nonce bytes, hexutil-encoded). -/
def nonceString (n : Nat) : String :=
  String.mk ('0' :: 'x' :: fixedHex 16 n)

/-- Decimal digit character for `n % 10`. -/
def decDigit (n : Nat) : Char := Char.ofNat (48 + n % 10)

/-- Structural worker for `decDigits`. -/
def decDigitsAux : Nat → Nat → List Char
  | 0, _ => []
  | fuel + 1, n =>
    if n < 10 then [decDigit n] else decDigitsAux fuel (n / 10) ++ [decDigit (n % 10)]

/-- Decimal digits of `n`, big-endian, `"0"` included for zero: the digit
list of `big.Int.String()` for non-negative inputs. -/
def decDigits (n : Nat) : List Char := decDigitsAux (n + 1) n

/-- `big.Int.String()` for a non-negative value. -/
def decString (n : Nat) : String := String.mk (decDigits n)

/-- `common.Bytes2Hex`: lowercase hex of a byte slice, no `0x`. -/
def bytes2Hex (bs : List Nat) : String :=
  String.mk (bs.foldr (fun b acc => hexDigit (b / 16 % 16) :: hexDigit (b % 16) :: acc) [])

/-- The character is a lowercase hex digit. -/
def isHexChar (c : Char) : Bool :=
  (48 ≤ c.toNat && c.toNat ≤ 57) || (97 ≤ c.toNat && c.toNat ≤ 102)

/-- The character is a hex digit of either case. -/
def isHexCharAny (c : Char) : Bool :=
  isHexChar c || (65 ≤ c.toNat && c.toNat ≤ 70)

/-- `s` is `"0x"` followed by at least one lowercase hex digit. -/
def isLowerHex0x (s : String) : Bool :=
  match s.data with
  | '0' :: 'x' :: rest => !rest.isEmpty && rest.all isHexChar
  | _ => false

/-- `s` is `"0x"` followed by at least one hex digit of either case. -/
def isHex0x (s : String) : Bool :=
  match s.data with
  | '0' :: 'x' :: rest => !rest.isEmpty && rest.all isHexCharAny
  | _ => false

/-- `s` consists only of decimal digit characters (and is nonempty). -/
def isDecString (s : String) : Bool :=
  !s.data.isEmpty && s.data.all (fun c => c.isDigit)

/-- Numeric value of a hex digit character (either case). -/
def hexCharVal (c : Char) : Nat :=
  if c.toNat ≤ 57 then c.toNat - 48
  else if c.toNat ≤ 70 then c.toNat - 55
  else c.toNat - 87

/-- Big-endian numeric value of a hex digit list. -/
def hexListVal (cs : List Char) : Nat :=
  cs.foldl (fun acc c => acc * 16 + hexCharVal c) 0

/-- Parse a `"0x..."` string back to its numeric value (information-loss
check for the hex-rendered fields). -/
def fromHex0x (s : String) : Option Nat :=
  match s.data with
  | '0' :: 'x' :: rest => if rest.isEmpty then none else some (hexListVal rest)
  | _ => none

/-- EIP-55 per-character step (`common.Address.checksumHex`): uppercase a
letter when the matching keccak nibble exceeds 7. -/
def eip55Char (nib : Nat) (c : Char) : Char :=
  if 57 < c.toNat && 7 < nib then Char.ofNat (c.toNat - 32) else c

/-- EIP-55 checksum casing of a 40-character hex string, given the nibble
reader of `keccak256` of that string. -/
def eip55 (keccak : List Char → Nat → Nat) (cs : List Char) : List Char :=
  (cs.enum).map (fun p => eip55Char (keccak cs p.1) p.2)

/-- `common.Address.Hex()`: `"0x"` plus the EIP-55 checksum-cased 40 hex
digits of the address. -/
def addressHex (keccak : List Char → Nat → Nat) (a : Nat) : String :=
  String.mk ('0' :: 'x' :: eip55 keccak (fixedHex 40 a))

/-- ASCII lowercasing of one character (`strings.ToLower`, restricted to
the ASCII range that the matched needle uses). -/
def lowerChar (c : Char) : Char :=
  if 65 ≤ c.toNat && c.toNat ≤ 90 then Char.ofNat (c.toNat + 32) else c

/-- `strings.Contains` on character lists. -/
def containsSub (needle : List Char) : List Char → Bool
  | [] => needle.isEmpty
  | c :: rest => needle.isPrefixOf (c :: rest) || containsSub needle rest

/-- `strings.Contains(strings.ToLower(msg), "connection")` — the transient
connectivity test of the subscription supervisor. -/
def isConnectionError (msg : String) : Bool :=
  containsSub "connection".data (msg.data.map lowerChar)

/-! ## Data model (`cmd/root.go`, types `Header` and `Tx`) -/

/-- The app/database representation of a block header (`type Header`,
root.go). `Block` (a held pointer, not a column) and the gorm timestamp
columns are not modelled; `Txes` (a many-to-many relation, not a column)
is carried separately alongside the row. -/
structure Header where
  Hash : String
  ParentHash : String
  UncleHash : String
  Coinbase : String
  Root : String
  TxHash : String
  ReceiptHash : String
  Difficulty : String
  Number : Nat
  GasLimit : Nat
  GasUsed : Nat
  Time : Nat
  Extra : List Nat
  MixDigest : String
  Nonce : String
  BaseFee : String
  Uncle1 : String
  Uncle2 : String
  Orphan : Bool
  UncleBy : String
  Error : String
  deriving Repr, DecidableEq

/-- The app/database representation of a transaction (`type Tx`,
root.go). The `Headers` relation lives in the join table of the store
model, not in the row. -/
structure Tx where
  Hash : String
  From : String
  To : String
  Data : String
  GasPrice : String
  GasLimit : String
  Value : String
  Nonce : Nat
  deriving Repr, DecidableEq

/-- The relational store: the `headers` table, the `txes` table, and the
`header_txes` many-to-many join table (pairs of header hash and tx
hash). -/
structure DB where
  headers : List Header
  txes : List Tx
  headerTxes : List (String × String)
  deriving Repr, DecidableEq

/-! ## Wire model (the `go-ethereum` values the program consumes) -/

/-- A wire block header (`types.Header`). `hashVal` is the value of
`Header.Hash()` (the keccak content digest, carried as data since the
digest function itself is not modelled); digests and addresses are their
big-endian integer values. -/
structure WireHeader where
  hashVal : Nat
  parentHash : Nat
  uncleHash : Nat
  coinbase : Nat
  root : Nat
  txHash : Nat
  receiptHash : Nat
  difficulty : Nat
  number : Nat
  gasLimit : Nat
  gasUsed : Nat
  time : Nat
  extra : List Nat
  mixDigest : Nat
  nonce : Nat
  baseFee : Option Nat
  deriving Repr, DecidableEq

/-- Equality on `Except` results is decidable (needed to evaluate the
model on concrete inputs). -/
instance {ε α : Type} [DecidableEq ε] [DecidableEq α] : DecidableEq (Except ε α) := fun a b =>
  match a, b with
  | .error e1, .error e2 =>
    if h : e1 = e2 then isTrue (congrArg Except.error h)
    else isFalse (fun hh => h (Except.error.inj hh))
  | .ok v1, .ok v2 =>
    if h : v1 = v2 then isTrue (congrArg Except.ok h)
    else isFalse (fun hh => h (Except.ok.inj hh))
  | .error _, .ok _ => isFalse (fun hh => Except.noConfusion hh)
  | .ok _, .error _ => isFalse (fun hh => Except.noConfusion hh)

/-- A wire transaction (`types.Transaction`), restricted to what `appTx`
reads. `asMessageFrom` is the outcome of
`tx.AsMessage(types.NewEIP2930Signer(chainID), baseFee)`'s sender
recovery: the chain-ID-bound signature recovery is cryptographic, so the
wire value carries its result (`Except` mirroring Go's `(Message,
error)`). `gas` is the transaction's own gas limit (`tx.Gas()`), which
`appTx` never reads. -/
structure WireTx where
  hashVal : Nat
  toAddr : Option Nat
  asMessageFrom : Except String Nat
  data : List Nat
  gasPrice : Nat
  gasFeeCap : Nat
  gas : Nat
  value : Nat
  nonce : Nat
  deriving Repr, DecidableEq

/-- A full wire block (`types.Block`) as returned by the node: header,
transactions, uncle headers. `BaseFee()` is the header's base fee. -/
structure Block where
  header : WireHeader
  transactions : List WireTx
  uncles : List WireHeader
  deriving Repr, DecidableEq

/-- The node client capability used by the handlers: fetch-by-hash (keyed
by the `0x...` hex string the program passes through `common.HexToHash`)
and fetch-by-number. `none` models an RPC error. -/
structure Client where
  blockByHash : String → Option Block
  blockByNumber : Nat → Option Block

/-- `types.EmptyUncleHash`: the digest of an empty uncle list. -/
def emptyUncleHash : Nat :=
  0x1dcc4de8dec75d7aab85b567b6ccd41ad312451b948a7413f0a142fd40d49347

/-! ## Normalizers (`appHeader`, `appTx`, `blockTxes2AppTxes`) -/

section OrphanTracker

variable (keccak : List Char → Nat → Nat)

/-- `appHeader` (root.go): translate a wire header into the app `Header`
row. Hex/decimal renderings follow the Go encoders; `Number` is
`big.Int.Uint64()`, hence mod `2^64`; `BaseFee` is empty when absent. -/
def appHeader (header : WireHeader) : Header :=
  let h : Header :=
    { Hash := hashHex header.hashVal
      ParentHash := hashHex header.parentHash
      UncleHash := hashHex header.uncleHash
      Coinbase := addressHex keccak header.coinbase
      Root := hashHex header.root
      TxHash := hashHex header.txHash
      ReceiptHash := hashHex header.receiptHash
      Difficulty := hexutilBigString header.difficulty
      Number := header.number % 2 ^ 64
      GasLimit := header.gasLimit
      GasUsed := header.gasUsed
      Time := header.time
      Extra := header.extra
      MixDigest := hashHex header.mixDigest
      Nonce := nonceString header.nonce
      BaseFee := ""
      Uncle1 := ""
      Uncle2 := ""
      Orphan := false
      UncleBy := ""
      Error := "" }
  match header.baseFee with
  | none => h
  | some bf => { h with BaseFee := decString bf }

/-- `appTx` (root.go): translate a wire transaction. The `baseFee`
argument is only consumed by the signer's message derivation, never by a
stored field. A sender-recovery failure is returned as an error (the
empty `Tx{}` Go pairs with it is discarded by every caller). -/
def appTx (tx : WireTx) (baseFee : Option Nat) : Except String Tx :=
  let toStr := match tx.toAddr with
    | none => ""
    | some a => addressHex keccak a
  match tx.asMessageFrom with
  | .error e => .error e
  | .ok fromAddr =>
    .ok { Hash := hashHex tx.hashVal
          From := addressHex keccak fromAddr
          To := toStr
          Data := bytes2Hex tx.data
          GasPrice := decString tx.gasPrice
          GasLimit := decString tx.gasFeeCap
          Value := decString tx.value
          Nonce := tx.nonce }

/-- `blockTxes2AppTxes` (root.go): normalize a block's transactions,
stopping at the first failure (whose error the caller propagates). -/
def blockTxes2AppTxes : List WireTx → Option Nat → Except String (List Tx)
  | [], _ => .ok []
  | t :: rest, bf =>
    match appTx keccak t bf with
    | .error e => .error e
    | .ok a =>
      match blockTxes2AppTxes rest bf with
      | .error e => .error e
      | .ok ts => .ok (a :: ts)

end OrphanTracker

/-! ## Upsert engine (`Header.CreateOrUpdate`) and bulk demotion -/

/-- Apply one assignment column of the `ON CONFLICT ... DO UPDATE SET`
clause: the permitted names are `"orphan"` and `"uncle_by"` (root.go:
"assignCols should be any of ... these are the fields which are permitted
to be updated in case the record already exists"); any other name touches
nothing here. -/
def assignCol (c : String) (src dst : Header) : Header :=
  if c = "orphan" then { dst with Orphan := src.Orphan }
  else if c = "uncle_by" then { dst with UncleBy := src.UncleBy }
  else dst

/-- Apply the whole `clause.AssignmentColumns(cols)` list to an existing
row `dst`, taking the new values from `src`. -/
def assignColsTo (cols : List String) (src dst : Header) : Header :=
  cols.foldl (fun acc c => assignCol c src acc) dst

/-- The header-table half of `CreateOrUpdate`: insert the row, or — on a
`hash` conflict — update only the assignment columns of the existing
row. -/
def upsertHeaderRow (rows : List Header) (h : Header) (cols : List String) : List Header :=
  if rows.any (fun r => r.Hash == h.Hash) then
    rows.map (fun r => if r.Hash == h.Hash then assignColsTo cols h r else r)
  else rows ++ [h]

/-- The tx-table half: `OnConflict{txes.hash, UpdateAll: true}` — insert,
or overwrite every column of the existing row (tx content is immutable
and keyed by hash, so a full overwrite is safe). -/
def upsertTxRow (rows : List Tx) (t : Tx) : List Tx :=
  if rows.any (fun r => r.Hash == t.Hash) then
    rows.map (fun r => if r.Hash == t.Hash then t else r)
  else rows ++ [t]

/-- Idempotent insert into the `header_txes` join table (gorm's
association save: duplicate links are no-ops). -/
def addLink (links : List (String × String)) (l : String × String) : List (String × String) :=
  if links.contains l then links else links ++ [l]

/-- `Header.CreateOrUpdate` (root.go): upsert the header row with the
given assignment columns; then, unless the tx list is empty, upsert every
transaction row (full overwrite) and ensure each header-tx join link
exists. `txes` is the `h.Txes` association of the Go struct. -/
def Header.CreateOrUpdate (db : DB) (h : Header) (txes : List Tx) (assignCols : List String) : DB :=
  let cols : List String := [] ++ assignCols
  let headers1 := upsertHeaderRow db.headers h cols
  if txes.isEmpty then { db with headers := headers1 }
  else
    let folded := txes.foldl
      (fun (acc : List Tx × List (String × String)) t =>
        (upsertTxRow acc.1 t, addLink acc.2 (h.Hash, t.Hash)))
      (db.txes, db.headerTxes)
    { headers := headers1, txes := folded.1, headerTxes := folded.2 }

/-- The bulk demotion `UPDATE headers SET orphan = true WHERE number = ?
AND hash != ?` used when a canonical header is stored at a height
(root.go, in `handleHeader` and in the canonical-head branch). -/
def demoteSiblings (rows : List Header) (number : Nat) (hash : String) : List Header :=
  rows.map (fun r =>
    if r.Number == number && r.Hash != hash then { r with Orphan := true } else r)

/-! ## Event handlers (`handleHeader` and the event-loop branches) -/

section Handlers

variable (keccak : List Char → Nat → Nat)

/-- The `for i, uncle := range bl.Uncles()` loop of `handleHeader`: set
`Uncle1` for index 0 and `Uncle2` otherwise, then recursively process the
uncle (as an orphan, cited by the enclosing header) through `hh`,
threading the store. Returns the store and the header with its uncle
fields filled. -/
def unclesPass (hh : DB → WireHeader → String → Except String DB) :
    DB → Header → Nat → List WireHeader → Except String (DB × Header)
  | db, hAcc, _, [] => .ok (db, hAcc)
  | db, hAcc, i, u :: rest =>
    let hAcc' := if i == 0 then { hAcc with Uncle1 := hashHex u.hashVal }
                 else { hAcc with Uncle2 := hashHex u.hashVal }
    match hh db u hAcc'.Hash with
    | .error e => .error e
    | .ok db' => unclesPass hh db' hAcc' (i + 1) rest

/-- `handleHeader` (root.go): normalize the header, set `Orphan`/`UncleBy`,
fetch the full block by hash, normalize its transactions (any failure
propagates as an error — see the claim on sender recovery), recursively
process each uncle as an orphan cited by this header, upsert the header
with `["orphan"]` (plus `"uncle_by"` when cited), and, when this header
is canonical, demote every other stored row at its height. The `fuel`
argument bounds the uncle recursion depth (the Go recursion is bounded by
block data; Lean requires the explicit bound). -/
def handleHeader : Nat → Client → DB → WireHeader → Bool → String →
    Except String (DB × Header)
  | 0, _, _, _, _, _ => .error "uncle recursion exhausted"
  | fuel + 1, client, db, tHeader, isOrphan, uncleBy =>
    let header0 := { appHeader keccak tHeader with Orphan := isOrphan, UncleBy := uncleBy }
    match client.blockByHash header0.Hash with
    | none => .error "BlockByHash failed"
    | some bl =>
      match blockTxes2AppTxes keccak bl.transactions bl.header.baseFee with
      | .error e => .error e
      | .ok txes =>
        match unclesPass
            (fun db' u ub => (handleHeader fuel client db' u true ub).map (fun p => p.1))
            db header0 0 bl.uncles with
        | .error e => .error e
        | .ok (db1, header1) =>
          let cols := if uncleBy != "" then ["orphan", "uncle_by"] else ["orphan"]
          let db2 := Header.CreateOrUpdate db1 header1 txes cols
          let db3 := if isOrphan then db2
                     else { db2 with headers := demoteSiblings db2.headers header1.Number header1.Hash }
          .ok (db3, header1)

/-- The mutable state the event loop owns: the store handle and the
in-memory `statusLatestHead` snapshot. -/
structure LoopState where
  db : DB
  statusLatestHead : Header
  deriving Repr, DecidableEq

/-- The conflict flag computed in the canonical-head branch (root.go
lines 548-551): same height with a different hash, or a height strictly
below the recorded latest, or a parent hash that does not match the
recorded latest head's hash. -/
def conflictOf (latestHead statusLatestHead : Header) : Bool :=
  ((latestHead.Number == statusLatestHead.Number) && (latestHead.Hash != statusLatestHead.Hash))
  || decide (latestHead.Number < statusLatestHead.Number)
  || (latestHead.ParentHash != statusLatestHead.Hash)

/-- The storage tail of the canonical-head branch: full fetch-and-store of
the new head via `handleHeader` (orphan=false), on a store where siblings
were already demoted. -/
def headFullProcess (fuel : Nat) (client : Client) (db1 : DB) (latestHead : Header)
    (w : WireHeader) : Except String LoopState :=
  match handleHeader keccak fuel client db1 w false "" with
  | .error e => .error e
  | .ok (db2, _) => .ok { db := db2, statusLatestHead := latestHead }

/-- The side-head branch (root.go, `case header := <-sideHeadCh`): store
the side header as an orphan, then fetch the canonical block at the same
height by number and store it as canonical. Errors are fatal to the
loop. -/
def sideStep (fuel : Nat) (client : Client) (s : LoopState) (header : WireHeader) :
    Except String LoopState :=
  match handleHeader keccak fuel client s.db header true "" with
  | .error e => .error e
  | .ok (db1, _) =>
    match client.blockByNumber header.number with
    | none => .error "BlockByNumber failed"
    | some canonBlock =>
      match handleHeader keccak fuel client db1 canonBlock.header false "" with
      | .error e => .error e
      | .ok (db2, _) => .ok { s with db := db2 }

/-- The canonical-head branch (root.go, `case header := <-headCh`): demote
any other stored row at this height, compute the conflict flag against the
previous `statusLatestHead`, update the snapshot, and — unless the header
declares no uncles and no conflict was found — run the full
fetch-and-store. (The enqueue onto `trailerCh` is modelled as a separate
`Event.trail` event.) -/
def headStep (fuel : Nat) (client : Client) (s : LoopState) (header : WireHeader) :
    Except String LoopState :=
  let latestHead := appHeader keccak header
  let db1 := { s.db with
    headers := demoteSiblings s.db.headers (header.number % 2 ^ 64) (hashHex header.hashVal) }
  let conflict := conflictOf latestHead s.statusLatestHead
  if header.uncleHash == emptyUncleHash && !conflict then
    .ok { db := db1, statusLatestHead := latestHead }
  else headFullProcess keccak fuel client db1 latestHead header

/-- `trailHeight` (root.go): the constant depth of the trailing
confirmation pass. -/
def trailHeight : Nat := 10

/-- Go `uint64` subtraction (wraps modulo `2^64`), for
`header.Number.Uint64() - trailHeight`. -/
def sub64 (a b : Nat) : Nat := (a % 2 ^ 64 + 2 ^ 64 - b % 2 ^ 64) % 2 ^ 64

/-- The trailing-confirmation branch (root.go, `case header :=
<-trailerCh`): look up the stored rows at `currentHeight - trailHeight`;
if none are stored, do nothing; otherwise count the rows marked canonical
and, when that count is not exactly 1, fetch the block at height
`trailHeight` — the constant 10, exactly as the source passes
`big.NewInt(int64(trailHeight))` — and store it as canonical. -/
def trailStep (fuel : Nat) (client : Client) (s : LoopState) (header : WireHeader) :
    Except String LoopState :=
  let trailerHeight := sub64 header.number trailHeight
  let storedHeaders := s.db.headers.filter (fun r => r.Number == trailerHeight)
  if storedHeaders.isEmpty then .ok s
  else
    let countCanonical := (storedHeaders.filter (fun r => !r.Orphan)).length
    if countCanonical < 1 || countCanonical > 1 then
      match client.blockByNumber trailHeight with
      | none => .error "BlockByNumber failed"
      | some canonBlock =>
        match handleHeader keccak fuel client s.db canonBlock.header false "" with
        | .error e => .error e
        | .ok (db2, _) => .ok { s with db := db2 }
    else .ok s

/-- One event of the loop: a side-head announcement, a canonical-head
announcement, or a trailing-check item (enqueued by the canonical-head
branch in the source; here delivered as its own event). -/
inductive Event where
  | side (w : WireHeader)
  | head (w : WireHeader)
  | trail (w : WireHeader)

/-- Process a sequence of events in arrival order; any handler error
aborts the loop (fatal policy). -/
def runEvents (fuel : Nat) (client : Client) : LoopState → List Event →
    Except String LoopState
  | s, [] => .ok s
  | s, ev :: rest =>
    match (match ev with
           | .side w => sideStep keccak fuel client s w
           | .head w => headStep keccak fuel client s w
           | .trail w => trailStep keccak fuel client s w) with
    | .error e => .error e
    | .ok s' => runEvents fuel client s' rest

end Handlers

/-! ## Subscription supervisor (root.go, the two `Err()` branches) -/

/-- Which subscription an error arrived on. -/
inductive SubKind where
  | side
  | head
  deriving Repr, DecidableEq

/-- What the supervisor does with a subscription error. -/
inductive SubErrOutcome where
  | resumed (k : SubKind)
  | shutdown
  deriving Repr, DecidableEq

/-- The supervisor's handling of an error on subscription `k` (root.go
lines 469-495): if the lowercased error text contains "connection",
re-establish that same subscription (`resubErr k` is the outcome of
`setupClientSubsctription`, `none` = success) and resume the loop;
otherwise — or if re-establishing fails — send the interrupt that shuts
the process down. -/
def handleSubscriptionError (k : SubKind) (errMsg : String)
    (resubErr : SubKind → Option String) : SubErrOutcome :=
  if isConnectionError errMsg then
    match resubErr k with
    | some _ => .shutdown
    | none => .resumed k
  else .shutdown

/-! ## Store invariants and well-formedness of wire data -/

/-- Number of rows at height `n` marked canonical (`orphan=false`). -/
def countCanonicalAt (rows : List Header) (n : Nat) : Nat :=
  (rows.filter (fun r => r.Number == n && !r.Orphan)).length

/-- No two stored header rows share a hash (the `hash` column is the
primary key). -/
def HashesDistinct (rows : List Header) : Prop :=
  rows.Pairwise (fun a b => a.Hash ≠ b.Hash)

/-- Every stored row's height agrees with the height assignment `num`
(hashes are content digests, so a hash determines its block's height;
`num` names that assignment). -/
def NumbersConsistent (num : String → Nat) (rows : List Header) : Prop :=
  ∀ r ∈ rows, r.Number = num r.Hash

/-- At most one canonical row per height. -/
def AtMostOneCanonical (rows : List Header) : Prop :=
  ∀ n, countCanonicalAt rows n ≤ 1

/-- The store invariant carried through the event loop. -/
def DBInv (num : String → Nat) (db : DB) : Prop :=
  HashesDistinct db.headers ∧ NumbersConsistent num db.headers ∧
    AtMostOneCanonical db.headers

/-- A wire header is consistent with the height assignment `num`: its
(truncated) number is the height of its hash. Real headers satisfy this
because the hash is a digest of the content, number included. -/
def WireOk (num : String → Nat) (w : WireHeader) : Prop :=
  w.number % 2 ^ 64 = num (hashHex w.hashVal)

/-- All uncle headers of a block are consistent with `num`. -/
def BlockUnclesOk (num : String → Nat) (bl : Block) : Prop :=
  ∀ u ∈ bl.uncles, WireOk num u

/-- Every block the node hands out carries consistent headers: uncles for
fetch-by-hash; the block's own header (and uncles) for fetch-by-number. -/
def ClientOk (num : String → Nat) (client : Client) : Prop :=
  (∀ s bl, client.blockByHash s = some bl → BlockUnclesOk num bl) ∧
  (∀ n bl, client.blockByNumber n = some bl →
      WireOk num bl.header ∧ BlockUnclesOk num bl)

/-- The headers delivered as events are consistent with `num`. -/
def EventOk (num : String → Nat) : Event → Prop
  | .side w => WireOk num w
  | .head w => WireOk num w
  | .trail _ => True

/-! ## Concrete data used to evaluate the model -/

/-- A dummy keccak nibble reader (theorems about the handlers hold for
every `keccak`; concrete evaluations fix this one). -/
def keccak0 : List Char → Nat → Nat := fun _ _ => 0

/-- The empty store. -/
def dbEmpty : DB := { headers := [], txes := [], headerTxes := [] }

/-- A client whose node answers nothing. -/
def clientNone : Client := { blockByHash := fun _ => none, blockByNumber := fun _ => none }

/-- A wire-header builder: digest value, parent digest, uncle-list digest
and height vary; the remaining fields are fixed representative values. -/
def mkWire (hv pv unc n : Nat) : WireHeader :=
  { hashVal := hv, parentHash := pv, uncleHash := unc, coinbase := 1, root := 2,
    txHash := 3, receiptHash := 4, difficulty := 255, number := n,
    gasLimit := 8000000, gasUsed := 21000, time := 1600000000, extra := [],
    mixDigest := 5, nonce := 6, baseFee := none }

/-- A block with no transactions and the given uncles. -/
def mkBlock (w : WireHeader) (us : List WireHeader) : Block :=
  { header := w, transactions := [], uncles := us }

/-- An all-default header row (base for concrete row literals). -/
def hdr0 : Header :=
  { Hash := "", ParentHash := "", UncleHash := "", Coinbase := "", Root := "",
    TxHash := "", ReceiptHash := "", Difficulty := "", Number := 0, GasLimit := 0,
    GasUsed := 0, Time := 0, Extra := [], MixDigest := "", Nonce := "", BaseFee := "",
    Uncle1 := "", Uncle2 := "", Orphan := false, UncleBy := "", Error := "" }

/-- Trailing-pass scenario: the canonical-head event at height 110 whose
deferred check examines height 100. -/
def wC1head : WireHeader := mkWire 9 8 emptyUncleHash 110

/-- Trailing-pass scenario: the canonical block at height 10 that the
corrective fetch actually retrieves. -/
def wC1canon10 : WireHeader := mkWire 7 6 emptyUncleHash 10

/-- Trailing-pass scenario: a canonical block at height 100 that the node
would serve, were it asked. -/
def wC1canon100 : WireHeader := mkWire 5 4 emptyUncleHash 100

/-- Trailing-pass scenario node: serves the blocks at heights 10 and 100
by number, and their bodies by hash. -/
def clientC1 : Client :=
  { blockByHash := fun s =>
      if s = hashHex 7 then some (mkBlock wC1canon10 [])
      else if s = hashHex 5 then some (mkBlock wC1canon100 [])
      else none
    blockByNumber := fun n =>
      if n = 10 then some (mkBlock wC1canon10 [])
      else if n = 100 then some (mkBlock wC1canon100 [])
      else none }

/-- Trailing-pass scenario: one stored row at height 100, marked orphan
(zero canonical rows at that height). -/
def rowC1orphan : Header := { appHeader keccak0 wC1canon100 with Hash := hashHex 99, Orphan := true }

/-- Trailing-pass scenario state with the orphan row stored. -/
def stC1 : LoopState :=
  { db := { headers := [rowC1orphan], txes := [], headerTxes := [] },
    statusLatestHead := appHeader keccak0 (mkWire 1 0 emptyUncleHash 1) }

/-- Trailing-pass scenario state with nothing stored. -/
def stC1empty : LoopState :=
  { db := dbEmpty, statusLatestHead := appHeader keccak0 (mkWire 1 0 emptyUncleHash 1) }

/-- Uncle scenario: the uncle header at height 100. -/
def wC2uncle : WireHeader := mkWire 21 11 emptyUncleHash 100

/-- Uncle scenario: the canonical head at height 101 citing the uncle
(non-empty uncle-list digest). -/
def wC2head : WireHeader := mkWire 22 12 77 101

/-- Uncle scenario node: serves the citing head's block (listing the
uncle), the uncle's own block, and — were it asked — the canonical block
at the uncle's height 100. -/
def clientC2 : Client :=
  { blockByHash := fun s =>
      if s = hashHex 22 then some (mkBlock wC2head [wC2uncle])
      else if s = hashHex 21 then some (mkBlock wC2uncle [])
      else if s = hashHex 23 then some (mkBlock (mkWire 23 11 emptyUncleHash 100) [])
      else none
    blockByNumber := fun n =>
      if n = 100 then some (mkBlock (mkWire 23 11 emptyUncleHash 100) []) else none }

/-- Uncle scenario initial state: empty store; the previous head is the
parent of the new head, so no conflict interferes. -/
def stC2 : LoopState :=
  { db := dbEmpty, statusLatestHead := appHeader keccak0 (mkWire 12 2 emptyUncleHash 100) }

/-- Conflict scenario (claim C3): the new head at height 50 whose parent
digest 39 does not match the recorded latest head. -/
def wC3head : WireHeader := mkWire 40 39 emptyUncleHash 50

/-- Conflict scenario: the recorded latest head at height 49 with digest
41. -/
def stC3 : LoopState :=
  { db := dbEmpty, statusLatestHead := appHeader keccak0 (mkWire 41 38 emptyUncleHash 49) }

/-- Sender-recovery scenario: a transaction whose chain-ID-bound sender
recovery fails. -/
def txC8bad : WireTx :=
  { hashVal := 31, toAddr := some 2,
    asMessageFrom := .error "invalid transaction v, r, s values",
    data := [], gasPrice := 1, gasFeeCap := 2, gas := 3, value := 4, nonce := 5 }

/-- Sender-recovery scenario: the block at height 200 containing the bad
transaction. -/
def wC8 : WireHeader := mkWire 30 29 emptyUncleHash 200

/-- Sender-recovery scenario node. -/
def clientC8 : Client :=
  { blockByHash := fun s =>
      if s = hashHex 30 then some { header := wC8, transactions := [txC8bad], uncles := [] }
      else none
    blockByNumber := fun n =>
      if n = 200 then some { header := wC8, transactions := [txC8bad], uncles := [] }
      else none }

/-- Sender-recovery scenario state. -/
def stC8 : LoopState :=
  { db := dbEmpty, statusLatestHead := appHeader keccak0 (mkWire 29 28 emptyUncleHash 199) }

/-- A transaction with distinct gas price (7), gas fee cap (5) and gas
limit (9), for evaluating `appTx`'s field mapping. -/
def txC10 : WireTx :=
  { hashVal := 1, toAddr := none, asMessageFrom := .ok 9, data := [171],
    gasPrice := 7, gasFeeCap := 5, gas := 9, value := 0, nonce := 0 }

/-- Invariant scenario: the side header at height 7. -/
def wC4side : WireHeader := mkWire 100 50 emptyUncleHash 7

/-- Invariant scenario: the canonical block at height 7. -/
def wC4canon : WireHeader := mkWire 101 50 emptyUncleHash 7

/-- Invariant scenario height assignment. -/
def numC4 : String → Nat := fun s =>
  if s = hashHex 100 then 7 else if s = hashHex 101 then 7 else 0

/-- Invariant scenario node. -/
def clientC4 : Client :=
  { blockByHash := fun s =>
      if s = hashHex 100 then some (mkBlock wC4side [])
      else if s = hashHex 101 then some (mkBlock wC4canon [])
      else none
    blockByNumber := fun n => if n = 7 then some (mkBlock wC4canon []) else none }

/-- Invariant scenario initial state. -/
def stC4 : LoopState :=
  { db := dbEmpty, statusLatestHead := appHeader keccak0 (mkWire 99 98 emptyUncleHash 6) }

/-- Invariant scenario event list: a side-head event then a canonical-head
event, both at height 7. -/
def evsC4 : List Event := [Event.side wC4side, Event.head wC4canon]

/-- A wire header exercising every normalizer branch: difficulty 255,
nonce 6, a base fee present. -/
def wC7 : WireHeader := { mkWire 52 51 emptyUncleHash 60 with baseFee := some 1000 }

/-! ## Auxiliary definitions for reasoning about the tx-table fold -/

/-- One `UpdateAll` substitution: replace `r` by `t` when the hashes
coincide. -/
def subTx (t r : Tx) : Tx := if r.Hash == t.Hash then t else r

/-- The substitutions of a whole tx list, applied in order. -/
def chainTx (ts : List Tx) (r : Tx) : Tx := ts.foldl (fun r t => subTx t r) r

/-- Some stored tx row carries hash `h`. -/
def txHashPresent (rows : List Tx) (h : String) : Bool := rows.any (fun r => r.Hash == h)

/-- The tx-table component of the `CreateOrUpdate` fold. -/
def foldUpsertTx (rows : List Tx) (ts : List Tx) : List Tx := ts.foldl upsertTxRow rows

/-- The join-table component of the `CreateOrUpdate` fold. -/
def foldAddLinks (links : List (String × String)) (hh : String) (ts : List Tx) :
    List (String × String) :=
  ts.foldl (fun b t => addLink b (hh, t.Hash)) links

/-- Number of stored tx rows with hash `h`. -/
def countTxAt (rows : List Tx) (h : String) : Nat := (rows.filter (fun r => r.Hash == h)).length

/-- Upsert-frame scenario: a stored header row. -/
def rC5 : Header := { hdr0 with Hash := "h1", ParentHash := "p1", Number := 12, Orphan := false }

/-- Upsert-frame scenario: the same hash arriving again with new flag
values. -/
def hC5 : Header := { hdr0 with Hash := "h1", ParentHash := "IGNORED", Number := 999, Orphan := true, UncleBy := "citer" }

/-- Upsert-frame scenario store. -/
def dbC5 : DB := { headers := [rC5], txes := [], headerTxes := [] }

/-- Idempotence/sharing scenario: the shared transaction. -/
def tC6 : Tx := { Hash := "t1", From := "f", To := "", Data := "", GasPrice := "1", GasLimit := "2", Value := "3", Nonce := 4 }

/-- Idempotence/sharing scenario: first header. -/
def h1C6 : Header := { hdr0 with Hash := "a1", Number := 5 }

/-- Idempotence/sharing scenario: second header. -/
def h2C6 : Header := { hdr0 with Hash := "a2", Number := 5, Orphan := true }

/-- Trailing-pass scenario state with exactly one canonical row stored at
height 100. -/
def stC1canon : LoopState :=
  { db := { headers := [appHeader keccak0 wC1canon100], txes := [], headerTxes := [] },
    statusLatestHead := appHeader keccak0 (mkWire 1 0 emptyUncleHash 1) }

/-! ## Lemmas: the assignment-column update touches only its columns -/

theorem assignCol_eq (c : String) (src dst : Header) :
    assignCol c src dst =
      { dst with
        Orphan := if c = "orphan" then src.Orphan else dst.Orphan
        UncleBy := if c = "uncle_by" then src.UncleBy else dst.UncleBy } := by
  unfold assignCol
  by_cases h1 : c = "orphan"
  · subst h1; simp
  · by_cases h2 : c = "uncle_by"
    · subst h2; simp
    · simp [h1, h2]

theorem assignColsTo_eq (cols : List String) (src dst : Header) :
    assignColsTo cols src dst =
      { dst with
        Orphan := if cols.contains "orphan" then src.Orphan else dst.Orphan
        UncleBy := if cols.contains "uncle_by" then src.UncleBy else dst.UncleBy } := by
  induction cols generalizing dst with
  | nil => simp [assignColsTo]
  | cons c cs ih =>
    show assignColsTo cs src (assignCol c src dst) = _
    rw [ih, assignCol_eq]
    by_cases h1 : c = "orphan" <;> by_cases h2 : c = "uncle_by" <;>
      simp [h1, h2, List.contains_cons] <;> split_ifs <;> simp_all

theorem assignColsTo_Hash (cols : List String) (src dst : Header) :
    (assignColsTo cols src dst).Hash = dst.Hash := by rw [assignColsTo_eq]

theorem assignColsTo_Number (cols : List String) (src dst : Header) :
    (assignColsTo cols src dst).Number = dst.Number := by rw [assignColsTo_eq]

theorem upsertHeaderRow_update (rows : List Header) (h : Header) (cols : List String)
    (hmem : rows.any (fun r => r.Hash == h.Hash) = true) :
    upsertHeaderRow rows h cols
      = rows.map (fun r => if r.Hash == h.Hash then assignColsTo cols h r else r) := by
  simp [upsertHeaderRow, hmem]

theorem upsertHeaderRow_insert (rows : List Header) (h : Header) (cols : List String)
    (hmem : rows.any (fun r => r.Hash == h.Hash) = false) :
    upsertHeaderRow rows h cols = rows ++ [h] := by
  simp [upsertHeaderRow, hmem]

theorem addLink_mono (links : List (String × String)) (l l' : String × String)
    (hl : l ∈ links) : l ∈ addLink links l' := by
  unfold addLink; split
  · exact hl
  · exact List.mem_append_left _ hl

theorem addLink_self (links : List (String × String)) (l : String × String) :
    l ∈ addLink links l := by
  unfold addLink; split
  · next hc => exact List.mem_of_elem_eq_true hc
  · exact List.mem_append_right _ (List.mem_singleton.mpr rfl)

theorem txFold_fst (ts : List Tx) (hh : String) (a : List Tx) (b : List (String × String)) :
    (ts.foldl (fun acc t => (upsertTxRow acc.1 t, addLink acc.2 (hh, t.Hash))) (a, b)).1
      = foldUpsertTx a ts := by
  induction ts generalizing a b with
  | nil => rfl
  | cons t ts ih => exact ih _ _

theorem txFold_snd (ts : List Tx) (hh : String) (a : List Tx) (b : List (String × String)) :
    (ts.foldl (fun acc t => (upsertTxRow acc.1 t, addLink acc.2 (hh, t.Hash))) (a, b)).2
      = foldAddLinks b hh ts := by
  induction ts generalizing a b with
  | nil => rfl
  | cons t ts ih => exact ih _ _

theorem foldAddLinks_mono (ts : List Tx) (hh : String) (b : List (String × String))
    (l : String × String) (hl : l ∈ b) : l ∈ foldAddLinks b hh ts := by
  induction ts generalizing b with
  | nil => exact hl
  | cons t ts ih => exact ih _ (addLink_mono _ _ _ hl)

/-! ## Claim C5: upsert frame property -/

/-- C5: for a header whose hash already exists as a stored row,
`CreateOrUpdate` updates only the columns named in the allowed-mutable
set (drawn from `orphan`, `uncle_by`) of that row, leaves every other
column of it and every other row unchanged, creates no duplicate header
row (the table length is unchanged), and never removes an existing
header-transaction link. -/
theorem CreateOrUpdate_frame (db : DB) (h : Header) (txes : List Tx) (cols : List String)
    (hexist : db.headers.any (fun r => r.Hash == h.Hash) = true) :
    (Header.CreateOrUpdate db h txes cols).headers
      = db.headers.map (fun r =>
          if r.Hash == h.Hash then
            { r with
              Orphan := if cols.contains "orphan" then h.Orphan else r.Orphan
              UncleBy := if cols.contains "uncle_by" then h.UncleBy else r.UncleBy }
          else r)
    ∧ (Header.CreateOrUpdate db h txes cols).headers.length = db.headers.length
    ∧ (∀ l ∈ db.headerTxes, l ∈ (Header.CreateOrUpdate db h txes cols).headerTxes) := by
  have hheaders : (Header.CreateOrUpdate db h txes cols).headers
      = upsertHeaderRow db.headers h cols := by
    unfold Header.CreateOrUpdate
    simp only [List.nil_append]
    split <;> rfl
  have hmap : upsertHeaderRow db.headers h cols
      = db.headers.map (fun r => if r.Hash == h.Hash then assignColsTo cols h r else r) :=
    upsertHeaderRow_update _ _ _ hexist
  refine ⟨?_, ?_, ?_⟩
  · rw [hheaders, hmap]
    apply List.map_congr_left
    intro r _
    by_cases hr : (r.Hash == h.Hash) = true
    · simp only [hr, if_true]; rw [assignColsTo_eq]
    · simp only [hr, if_false, Bool.false_eq_true]
  · rw [hheaders, hmap, List.length_map]
  · intro l hl
    unfold Header.CreateOrUpdate
    simp only [List.nil_append]
    split
    · exact hl
    · show l ∈ (txes.foldl _ (db.txes, db.headerTxes)).2
      rw [txFold_snd]
      exact foldAddLinks_mono _ _ _ _ hl

/-- Witness for C5 at a concrete store: the row keyed `"h1"` gets only its
`Orphan` flag replaced. -/
theorem CreateOrUpdate_frame_witness :
    (Header.CreateOrUpdate dbC5 hC5 [] ["orphan"]).headers
      = dbC5.headers.map (fun r =>
          if r.Hash == hC5.Hash then
            { r with
              Orphan := if ["orphan"].contains "orphan" then hC5.Orphan else r.Orphan
              UncleBy := if ["orphan"].contains "uncle_by" then hC5.UncleBy else r.UncleBy }
          else r) :=
  (CreateOrUpdate_frame dbC5 hC5 [] ["orphan"] (by decide)).1

/-! ## Lemmas: idempotence of the upsert engine -/

theorem txHashPresent_iff (rows : List Tx) (h : String) :
    txHashPresent rows h = true ↔ ∃ r ∈ rows, r.Hash = h := by
  simp [txHashPresent, List.any_eq_true, beq_iff_eq]

theorem subTx_Hash (t r : Tx) : (subTx t r).Hash = r.Hash := by
  unfold subTx; split
  · next hb => exact (beq_iff_eq.mp hb).symm
  · rfl

theorem chainTx_Hash (ts : List Tx) (r : Tx) : (chainTx ts r).Hash = r.Hash := by
  induction ts generalizing r with
  | nil => rfl
  | cons t ts ih =>
    show (chainTx ts (subTx t r)).Hash = r.Hash
    rw [ih, subTx_Hash]

theorem upsertTxRow_present (rows : List Tx) (t : Tx)
    (hp : txHashPresent rows t.Hash = true) :
    upsertTxRow rows t = rows.map (subTx t) := by
  unfold upsertTxRow subTx
  simp [txHashPresent] at hp
  simp [hp]

theorem upsertTxRow_absent (rows : List Tx) (t : Tx)
    (hp : txHashPresent rows t.Hash = false) :
    upsertTxRow rows t = rows ++ [t] := by
  have hb : (rows.any fun r => r.Hash == t.Hash) = false := hp
  unfold upsertTxRow
  rw [hb]
  simp

theorem txHashPresent_map_subTx (rows : List Tx) (t : Tx) (h : String) :
    txHashPresent (rows.map (subTx t)) h = txHashPresent rows h := by
  induction rows with
  | nil => rfl
  | cons r rows ih =>
    simp only [List.map_cons, txHashPresent, List.any_cons] at *
    rw [subTx_Hash]
    exact congrArg _ ih

theorem txHashPresent_upsert_mono (rows : List Tx) (t : Tx) (h : String)
    (hp : txHashPresent rows h = true) :
    txHashPresent (upsertTxRow rows t) h = true := by
  by_cases hc : txHashPresent rows t.Hash = true
  · rw [upsertTxRow_present _ _ hc, txHashPresent_map_subTx]; exact hp
  · rw [upsertTxRow_absent _ _ (by simpa using hc)]
    rw [txHashPresent_iff] at hp ⊢
    obtain ⟨r, hr, he⟩ := hp
    exact ⟨r, List.mem_append_left _ hr, he⟩

theorem txHashPresent_upsert_self (rows : List Tx) (t : Tx) :
    txHashPresent (upsertTxRow rows t) t.Hash = true := by
  by_cases hc : txHashPresent rows t.Hash = true
  · rw [upsertTxRow_present _ _ hc, txHashPresent_map_subTx]; exact hc
  · rw [upsertTxRow_absent _ _ (by simpa using hc), txHashPresent_iff]
    exact ⟨t, List.mem_append_right _ (List.mem_singleton.mpr rfl), rfl⟩

theorem txHashPresent_foldUpsert_mono (ts : List Tx) (rows : List Tx) (h : String)
    (hp : txHashPresent rows h = true) :
    txHashPresent (foldUpsertTx rows ts) h = true := by
  induction ts generalizing rows with
  | nil => exact hp
  | cons t ts ih => exact ih _ (txHashPresent_upsert_mono _ _ _ hp)

theorem txHashPresent_foldUpsert_all (ts : List Tx) (rows : List Tx) :
    ∀ t ∈ ts, txHashPresent (foldUpsertTx rows ts) t.Hash = true := by
  induction ts generalizing rows with
  | nil => intro t ht; cases ht
  | cons t ts ih =>
    intro t' ht'
    rcases List.mem_cons.mp ht' with h1 | h2
    · subst h1
      exact txHashPresent_foldUpsert_mono ts (upsertTxRow rows t') t'.Hash
        (txHashPresent_upsert_self rows t')
    · exact ih _ t' h2

theorem foldUpsert_all_present (ts : List Tx) (rows : List Tx)
    (hp : ∀ t ∈ ts, txHashPresent rows t.Hash = true) :
    foldUpsertTx rows ts = rows.map (chainTx ts) := by
  induction ts generalizing rows with
  | nil =>
    show rows = rows.map (chainTx [])
    rw [show rows.map (chainTx []) = rows.map id from List.map_congr_left (fun r _ => rfl),
      List.map_id]
  | cons t ts ih =>
    show foldUpsertTx (upsertTxRow rows t) ts = _
    rw [upsertTxRow_present _ _ (hp t (List.mem_cons_self t ts))]
    rw [ih (rows.map (subTx t)) (fun t' ht' => by
      rw [txHashPresent_map_subTx]; exact hp t' (List.mem_cons_of_mem _ ht'))]
    rw [List.map_map]
    rfl

theorem chainTx_fixed (ts : List Tx) (rows : List Tx) :
    ∀ r ∈ foldUpsertTx rows ts, chainTx ts r = r := by
  induction ts using List.reverseRecOn with
  | nil => intro r _; rfl
  | append_singleton ts t ih =>
    intro r hr
    have hfold : foldUpsertTx rows (ts ++ [t]) = upsertTxRow (foldUpsertTx rows ts) t := by
      simp [foldUpsertTx, List.foldl_append]
    have hchain : ∀ x : Tx, chainTx (ts ++ [t]) x = subTx t (chainTx ts x) := by
      intro x; simp [chainTx, List.foldl_append]
    rw [hfold] at hr
    rw [hchain]
    by_cases hc : txHashPresent (foldUpsertTx rows ts) t.Hash = true
    · rw [upsertTxRow_present _ _ hc] at hr
      obtain ⟨r0, hr0, hre⟩ := List.mem_map.mp hr
      by_cases hx : (r0.Hash == t.Hash) = true
      · have hrt : r = t := by rw [← hre]; unfold subTx; simp [hx]
        rw [hrt]
        unfold subTx
        rw [if_pos (by rw [chainTx_Hash]; exact beq_self_eq_true _)]
      · have hrr : r = r0 := by rw [← hre]; unfold subTx; simp [hx]
        rw [hrr, ih r0 hr0]
        unfold subTx
        rw [if_neg hx]
    · rw [upsertTxRow_absent _ _ (by simpa using hc)] at hr
      rcases List.mem_append.mp hr with h1 | h2
      · have hne : r.Hash ≠ t.Hash := by
          intro he
          exact hc ((txHashPresent_iff _ _).mpr ⟨r, h1, he⟩)
        rw [ih r h1]
        unfold subTx
        rw [if_neg (by simpa using hne)]
      · have hrt : r = t := List.mem_singleton.mp h2
        rw [hrt]
        unfold subTx
        rw [if_pos (by rw [chainTx_Hash]; exact beq_self_eq_true _)]

theorem foldUpsert_idem (ts : List Tx) (rows : List Tx) :
    foldUpsertTx (foldUpsertTx rows ts) ts = foldUpsertTx rows ts := by
  rw [foldUpsert_all_present ts _ (txHashPresent_foldUpsert_all ts rows)]
  calc (foldUpsertTx rows ts).map (chainTx ts)
      = (foldUpsertTx rows ts).map id :=
        List.map_congr_left (fun r hr => chainTx_fixed ts rows r hr)
    _ = foldUpsertTx rows ts := List.map_id _

theorem foldAddLinks_self (ts : List Tx) (hh : String) (b : List (String × String)) :
    ∀ t ∈ ts, (hh, t.Hash) ∈ foldAddLinks b hh ts := by
  induction ts generalizing b with
  | nil => intro t ht; cases ht
  | cons t ts ih =>
    intro t' ht'
    rcases List.mem_cons.mp ht' with h1 | h2
    · subst h1
      show (hh, t'.Hash) ∈ foldAddLinks (addLink b (hh, t'.Hash)) hh ts
      exact foldAddLinks_mono ts hh _ _ (addLink_self _ _)
    · exact ih _ t' h2

theorem foldAddLinks_idem_of_present (ts : List Tx) (hh : String)
    (b : List (String × String)) (hp : ∀ t ∈ ts, (hh, t.Hash) ∈ b) :
    foldAddLinks b hh ts = b := by
  induction ts with
  | nil => rfl
  | cons t ts ih =>
    show foldAddLinks (addLink b (hh, t.Hash)) hh ts = b
    have hb : addLink b (hh, t.Hash) = b := by
      unfold addLink
      rw [if_pos (List.elem_eq_true_of_mem (hp t (List.mem_cons_self t ts)))]
    rw [hb]
    exact ih (fun t' ht' => hp t' (List.mem_cons_of_mem _ ht'))

theorem upsertHeaderRow_idem (rows : List Header) (h : Header) (cols : List String) :
    upsertHeaderRow (upsertHeaderRow rows h cols) h cols = upsertHeaderRow rows h cols := by
  by_cases hc : rows.any (fun r => r.Hash == h.Hash) = true
  · rw [upsertHeaderRow_update _ _ _ hc]
    have hc2 : (rows.map (fun r => if r.Hash == h.Hash then assignColsTo cols h r else r)).any
        (fun r => r.Hash == h.Hash) = true := by
      simp only [List.any_eq_true] at hc ⊢
      obtain ⟨r, hr, hb⟩ := hc
      refine ⟨if r.Hash == h.Hash then assignColsTo cols h r else r, List.mem_map_of_mem _ hr, ?_⟩
      rw [if_pos hb, assignColsTo_Hash]
      exact hb
    rw [upsertHeaderRow_update _ _ _ hc2, List.map_map]
    apply List.map_congr_left
    intro r _
    by_cases hb : (r.Hash == h.Hash) = true
    · simp only [Function.comp_apply, hb, if_pos, if_true]
      rw [if_pos (by rw [assignColsTo_Hash]; exact hb)]
      rw [assignColsTo_eq, assignColsTo_eq]
      split_ifs <;> rfl
    · simp only [Function.comp_apply, hb, Bool.false_eq_true, if_false]
  · rw [upsertHeaderRow_insert rows h cols (by simpa using hc)]
    have hc2 : (rows ++ [h]).any (fun r => r.Hash == h.Hash) = true := by
      simp
    rw [upsertHeaderRow_update _ _ _ hc2, List.map_append]
    have h1 : rows.map (fun r => if r.Hash == h.Hash then assignColsTo cols h r else r) = rows := by
      have hpt : ∀ r ∈ rows, (if r.Hash == h.Hash then assignColsTo cols h r else r) = r := by
        intro r hr
        rw [if_neg]
        simp only [List.any_eq_true, not_exists] at hc
        intro hb
        exact hc r ⟨hr, hb⟩
      calc rows.map (fun r => if r.Hash == h.Hash then assignColsTo cols h r else r)
          = rows.map id := List.map_congr_left hpt
        _ = rows := List.map_id _
    have h2 : (if h.Hash == h.Hash then assignColsTo cols h h else h) = h := by
      rw [if_pos (beq_self_eq_true _), assignColsTo_eq]
      split_ifs <;> rfl
    rw [h1]
    simp only [List.map_cons, List.map_nil]
    rw [h2]

theorem DB_ext (a b : DB) (h1 : a.headers = b.headers) (h2 : a.txes = b.txes)
    (h3 : a.headerTxes = b.headerTxes) : a = b := by
  cases a; cases b; simp_all

theorem CreateOrUpdate_headers (db : DB) (h : Header) (txes : List Tx) (cols : List String) :
    (Header.CreateOrUpdate db h txes cols).headers = upsertHeaderRow db.headers h cols := by
  unfold Header.CreateOrUpdate
  simp only [List.nil_append]
  split <;> rfl

theorem CreateOrUpdate_txes (db : DB) (h : Header) (txes : List Tx) (cols : List String) :
    (Header.CreateOrUpdate db h txes cols).txes
      = if txes.isEmpty then db.txes else foldUpsertTx db.txes txes := by
  unfold Header.CreateOrUpdate
  simp only [List.nil_append]
  by_cases he : txes.isEmpty <;> simp [he, txFold_fst]

theorem CreateOrUpdate_links (db : DB) (h : Header) (txes : List Tx) (cols : List String) :
    (Header.CreateOrUpdate db h txes cols).headerTxes
      = if txes.isEmpty then db.headerTxes else foldAddLinks db.headerTxes h.Hash txes := by
  unfold Header.CreateOrUpdate
  simp only [List.nil_append]
  by_cases he : txes.isEmpty <;> simp [he, txFold_snd]

theorem countTxAt_map_subTx (rows : List Tx) (t : Tx) (h : String) :
    countTxAt (rows.map (subTx t)) h = countTxAt rows h := by
  induction rows with
  | nil => rfl
  | cons r rows ih =>
    simp only [countTxAt, List.map_cons, List.filter_cons] at *
    rw [subTx_Hash]
    split <;> simp [ih]

theorem countTxAt_pos_iff (rows : List Tx) (h : String) :
    0 < countTxAt rows h ↔ txHashPresent rows h = true := by
  rw [txHashPresent_iff]
  unfold countTxAt
  rw [List.length_pos_iff_exists_mem]
  constructor
  · rintro ⟨r, hr⟩
    have := List.mem_filter.mp hr
    exact ⟨r, this.1, beq_iff_eq.mp this.2⟩
  · rintro ⟨r, hr, he⟩
    exact ⟨r, List.mem_filter.mpr ⟨hr, beq_iff_eq.mpr he⟩⟩

theorem countTxAt_upsert_self (rows : List Tx) (t : Tx) (hle : countTxAt rows t.Hash ≤ 1) :
    countTxAt (upsertTxRow rows t) t.Hash = 1 := by
  by_cases hp : txHashPresent rows t.Hash = true
  · rw [upsertTxRow_present _ _ hp, countTxAt_map_subTx]
    have := (countTxAt_pos_iff rows t.Hash).mpr hp
    omega
  · have hz : countTxAt rows t.Hash = 0 := by
      by_contra hnz
      exact hp ((countTxAt_pos_iff rows t.Hash).mp (by omega))
    rw [upsertTxRow_absent _ _ (by simpa using hp)]
    unfold countTxAt at *
    rw [List.filter_append, List.length_append, hz]
    simp

/-! ## Claim C6: idempotence and shared-transaction linkage -/

/-- C6: (1) calling `CreateOrUpdate` twice with the same header, the same
transaction list and the same allowed-mutable-columns set leaves the
store exactly as after the first call (so in particular unchanged up to
the allowed mutable columns); (2) storing two distinct-hash headers that
share one transaction leaves exactly one stored tx row for that hash and
two distinct header-transaction links. -/
theorem CreateOrUpdate_idempotent_shared :
    (∀ (db : DB) (h : Header) (txes : List Tx) (cols : List String),
      Header.CreateOrUpdate (Header.CreateOrUpdate db h txes cols) h txes cols
        = Header.CreateOrUpdate db h txes cols)
    ∧ (∀ (db : DB) (h1 h2 : Header) (t : Tx) (cols1 cols2 : List String),
        h1.Hash ≠ h2.Hash → countTxAt db.txes t.Hash ≤ 1 →
        countTxAt (Header.CreateOrUpdate (Header.CreateOrUpdate db h1 [t] cols1)
            h2 [t] cols2).txes t.Hash = 1
        ∧ (h1.Hash, t.Hash) ∈ (Header.CreateOrUpdate (Header.CreateOrUpdate db h1 [t] cols1)
            h2 [t] cols2).headerTxes
        ∧ (h2.Hash, t.Hash) ∈ (Header.CreateOrUpdate (Header.CreateOrUpdate db h1 [t] cols1)
            h2 [t] cols2).headerTxes
        ∧ (h1.Hash, t.Hash) ≠ (h2.Hash, t.Hash)) := by
  constructor
  · intro db h txes cols
    apply DB_ext
    · rw [CreateOrUpdate_headers, CreateOrUpdate_headers]
      exact upsertHeaderRow_idem _ _ _
    · rw [CreateOrUpdate_txes, CreateOrUpdate_txes]
      by_cases he : txes.isEmpty
      · simp [he]
      · simp only [he, Bool.false_eq_true, if_false]
        exact foldUpsert_idem _ _
    · rw [CreateOrUpdate_links, CreateOrUpdate_links]
      by_cases he : txes.isEmpty
      · simp [he]
      · simp only [he, Bool.false_eq_true, if_false]
        exact foldAddLinks_idem_of_present _ _ _ (foldAddLinks_self _ _ _)
  · intro db h1 h2 t cols1 cols2 hne hle
    have htx1 : (Header.CreateOrUpdate db h1 [t] cols1).txes = upsertTxRow db.txes t := by
      rw [CreateOrUpdate_txes]; rfl
    have htx2 : (Header.CreateOrUpdate (Header.CreateOrUpdate db h1 [t] cols1)
        h2 [t] cols2).txes = upsertTxRow (upsertTxRow db.txes t) t := by
      rw [CreateOrUpdate_txes, htx1]; rfl
    have hlk1 : (Header.CreateOrUpdate db h1 [t] cols1).headerTxes
        = addLink db.headerTxes (h1.Hash, t.Hash) := by
      rw [CreateOrUpdate_links]; rfl
    have hlk2 : (Header.CreateOrUpdate (Header.CreateOrUpdate db h1 [t] cols1)
        h2 [t] cols2).headerTxes
        = addLink (addLink db.headerTxes (h1.Hash, t.Hash)) (h2.Hash, t.Hash) := by
      rw [CreateOrUpdate_links, hlk1]; rfl
    refine ⟨?_, ?_, ?_, ?_⟩
    · rw [htx2]
      exact countTxAt_upsert_self _ _ (le_of_eq (countTxAt_upsert_self _ _ hle))
    · rw [hlk2]
      exact addLink_mono _ _ _ (addLink_self _ _)
    · rw [hlk2]
      exact addLink_self _ _
    · intro heq
      exact hne (congrArg Prod.fst heq)

/-- Witness for C6 at a concrete store: upserting `h1C6` (with shared tx
`tC6`) twice is a no-op the second time, and storing `h1C6` and `h2C6`
(both carrying `tC6`) leaves one tx row and both links. -/
theorem CreateOrUpdate_idempotent_shared_witness :
    (Header.CreateOrUpdate (Header.CreateOrUpdate dbEmpty h1C6 [tC6] ["orphan"])
        h1C6 [tC6] ["orphan"]
      = Header.CreateOrUpdate dbEmpty h1C6 [tC6] ["orphan"])
    ∧ countTxAt (Header.CreateOrUpdate (Header.CreateOrUpdate dbEmpty h1C6 [tC6] ["orphan"])
        h2C6 [tC6] ["orphan"]).txes tC6.Hash = 1
    ∧ (h1C6.Hash, tC6.Hash) ∈ (Header.CreateOrUpdate
        (Header.CreateOrUpdate dbEmpty h1C6 [tC6] ["orphan"]) h2C6 [tC6] ["orphan"]).headerTxes
    ∧ (h2C6.Hash, tC6.Hash) ∈ (Header.CreateOrUpdate
        (Header.CreateOrUpdate dbEmpty h1C6 [tC6] ["orphan"]) h2C6 [tC6] ["orphan"]).headerTxes :=
  ⟨CreateOrUpdate_idempotent_shared.1 dbEmpty h1C6 [tC6] ["orphan"],
   (CreateOrUpdate_idempotent_shared.2 dbEmpty h1C6 h2C6 tC6 ["orphan"] ["orphan"]
      (by decide) (by decide)).1,
   (CreateOrUpdate_idempotent_shared.2 dbEmpty h1C6 h2C6 tC6 ["orphan"] ["orphan"]
      (by decide) (by decide)).2.1,
   (CreateOrUpdate_idempotent_shared.2 dbEmpty h1C6 h2C6 tC6 ["orphan"] ["orphan"]
      (by decide) (by decide)).2.2.1⟩

/-! ## Claim C10: `appTx` field mapping -/

/-- C10: a successfully normalized transaction record stores the decimal
string of the wire transaction's gas fee cap (`tx.GasFeeCap()`) in its
`GasLimit` field — not the transaction's own gas limit — while `GasPrice`
stores the decimal string of `tx.GasPrice()`. -/
theorem appTx_gasLimit_is_feeCap (keccak : List Char → Nat → Nat) (t : WireTx)
    (bf : Option Nat) (r : Tx) (h : appTx keccak t bf = .ok r) :
    r.GasLimit = decString t.gasFeeCap
    ∧ r.GasPrice = decString t.gasPrice
    ∧ (decString t.gas ≠ decString t.gasFeeCap → r.GasLimit ≠ decString t.gas) := by
  unfold appTx at h
  cases hm : t.asMessageFrom with
  | error e => rw [hm] at h; exact absurd h (by simp)
  | ok f =>
    rw [hm] at h
    simp only [Except.ok.injEq] at h
    subst h
    exact ⟨rfl, rfl, fun hne he => hne (he.symm)⟩

/-- Witness for C10: the concrete transaction `txC10` (gas price 7, fee
cap 5, gas limit 9). -/
theorem appTx_gasLimit_is_feeCap_witness :
    (appTx keccak0 txC10 none).map (fun r => r.GasLimit) = .ok (decString 5) := by
  have hr : appTx keccak0 txC10 none = .ok
      { Hash := hashHex 1, From := addressHex keccak0 9, To := "", Data := bytes2Hex [171],
        GasPrice := decString 7, GasLimit := decString 5, Value := decString 0, Nonce := 0 } := rfl
  have h := (appTx_gasLimit_is_feeCap keccak0 txC10 none _ hr).1
  rw [show decString 5 = decString txC10.gasFeeCap from rfl, ← h, hr]
  rfl

/-! ## Claim C9: subscription supervisor error classification -/

/-- C9: assuming re-subscription succeeds, the supervisor resumes the
loop (re-establishing only the affected subscription `k`) exactly when
the lowercased error text contains the substring "connection"; an error
not recognized as connection-related always shuts the process down. -/
theorem supervisor_resumes_iff (k : SubKind) (msg : String)
    (resubErr : SubKind → Option String) (hres : resubErr k = none) :
    (handleSubscriptionError k msg resubErr = .resumed k ↔ isConnectionError msg = true)
    ∧ (isConnectionError msg = false → handleSubscriptionError k msg resubErr = .shutdown) := by
  constructor
  · constructor
    · intro h
      by_cases hc : isConnectionError msg = true
      · exact hc
      · unfold handleSubscriptionError at h
        rw [if_neg (by simpa using hc)] at h
        cases h
    · intro hc
      unfold handleSubscriptionError
      rw [if_pos hc, hres]
  · intro hc
    unfold handleSubscriptionError
    rw [if_neg (by simp [hc])]

/-- Witness for C9: a mixed-case network error resumes the side
subscription; an unrelated error shuts down. -/
theorem supervisor_resumes_iff_witness :
    (handleSubscriptionError SubKind.side "read tcp: Connection reset by peer"
        (fun _ => none) = .resumed SubKind.side
      ↔ isConnectionError "read tcp: Connection reset by peer" = true)
    ∧ (isConnectionError "database is locked" = false →
        handleSubscriptionError SubKind.head "database is locked"
          (fun _ => none) = .shutdown) :=
  ⟨(supervisor_resumes_iff SubKind.side "read tcp: Connection reset by peer"
      (fun _ => none) rfl).1,
   (supervisor_resumes_iff SubKind.head "database is locked"
      (fun _ => none) rfl).2⟩

/-! ## Claim C3: conflict detection forces full processing -/

/-- C3: (1) for any header that is not its own parent, the canonical-head
branch flags a conflict exactly when the previously recorded latest head
shares the height with a different hash, or the new height is not
strictly greater than the recorded latest height, or the new parent hash
differs from the recorded latest head's hash; (2) whenever the conflict
flag is set, the canonical-head branch runs the full fetch-and-store
(`headFullProcess`) even if the header declares no uncles. -/
theorem conflict_detected_iff :
    (∀ latestHead statusLatestHead : Header,
      latestHead.ParentHash ≠ latestHead.Hash →
      (conflictOf latestHead statusLatestHead = true ↔
        ((latestHead.Number = statusLatestHead.Number ∧ latestHead.Hash ≠ statusLatestHead.Hash)
          ∨ ¬ statusLatestHead.Number < latestHead.Number
          ∨ latestHead.ParentHash ≠ statusLatestHead.Hash)))
    ∧ (∀ (keccak : List Char → Nat → Nat) (fuel : Nat) (client : Client) (s : LoopState)
        (w : WireHeader),
        conflictOf (appHeader keccak w) s.statusLatestHead = true →
        headStep keccak fuel client s w
          = headFullProcess keccak fuel client
              { s.db with headers :=
                  (demoteSiblings s.db.headers (w.number % 2 ^ 64) (hashHex w.hashVal)) }
              (appHeader keccak w) w) := by
  constructor
  · intro l st hwf
    unfold conflictOf
    simp only [Bool.or_eq_true, Bool.and_eq_true, beq_iff_eq, bne_iff_ne, decide_eq_true_eq]
    constructor
    · rintro ((⟨h1, h2⟩ | h) | h)
      · exact Or.inl ⟨h1, h2⟩
      · exact Or.inr (Or.inl (by omega))
      · exact Or.inr (Or.inr h)
    · rintro (⟨h1, h2⟩ | h | h)
      · exact Or.inl (Or.inl ⟨h1, h2⟩)
      · by_cases heq : l.Number = st.Number
        · by_cases hh : l.Hash = st.Hash
          · refine Or.inr ?_
            rw [← hh]
            exact hwf
          · exact Or.inl (Or.inl ⟨heq, hh⟩)
        · exact Or.inl (Or.inr (by omega))
      · exact Or.inr h
  · intro keccak fuel client s w hconf
    simp only [headStep]
    rw [hconf]
    simp

/-- Witness for C3: a same-height pair with distinct hashes, and the
concrete height-50 discontinuity scenario where the full fetch-and-store
runs despite an empty uncle list. -/
theorem conflict_detected_iff_witness :
    (conflictOf { hdr0 with Number := 5, Hash := "b", ParentHash := "a" }
        { hdr0 with Number := 5, Hash := "c" } = true ↔
      ((({ hdr0 with Number := 5, Hash := "b", ParentHash := "a" } : Header).Number
            = ({ hdr0 with Number := 5, Hash := "c" } : Header).Number
          ∧ ({ hdr0 with Number := 5, Hash := "b", ParentHash := "a" } : Header).Hash
            ≠ ({ hdr0 with Number := 5, Hash := "c" } : Header).Hash)
        ∨ ¬ ({ hdr0 with Number := 5, Hash := "c" } : Header).Number
            < ({ hdr0 with Number := 5, Hash := "b", ParentHash := "a" } : Header).Number
        ∨ ({ hdr0 with Number := 5, Hash := "b", ParentHash := "a" } : Header).ParentHash
            ≠ ({ hdr0 with Number := 5, Hash := "c" } : Header).Hash))
    ∧ headStep keccak0 0 clientNone stC3 wC3head
        = headFullProcess keccak0 0 clientNone
            { stC3.db with headers :=
                (demoteSiblings stC3.db.headers (wC3head.number % 2 ^ 64) (hashHex wC3head.hashVal)) }
            (appHeader keccak0 wC3head) wC3head :=
  ⟨conflict_detected_iff.1 _ _ (by decide),
   conflict_detected_iff.2 keccak0 0 clientNone stC3 wC3head (by decide)⟩

/-! ## Claim C1: the trailing confirmation pass -/

/-- C1 counterexample: with the canonical head at height 110 (trailing
height 100), (a) when zero rows are stored at height 100 the pass is a
no-op — no canonical block is fetched or stored at height 100 — and (b)
when one orphan row is stored at height 100 (zero canonical rows), the
corrective fetch stores a canonical row at height 10 (`trailHeight`, the
constant) and still none at height 100; the claim instead requires a
canonical row at height 100 in both situations. -/
theorem trailing_pass_counterexample :
    trailStep keccak0 3 clientC1 stC1empty wC1head = .ok stC1empty
    ∧ (trailStep keccak0 3 clientC1 stC1 wC1head).map
        (fun s' => (countCanonicalAt s'.db.headers 100, countCanonicalAt s'.db.headers 10))
      = .ok (0, 1) :=
  ⟨rfl, rfl⟩

/-- C1 (amended): on a canonical-head event at `currentHeight`, the
trailing pass examines the stored rows at height `currentHeight - 10`.
If no row is stored there, or exactly one stored row is marked canonical,
it does nothing. Otherwise it fetches the block at the constant height
`trailHeight = 10` — not at `currentHeight - 10` — and upserts it as
canonical. -/
theorem trailing_pass_amended (keccak : List Char → Nat → Nat) (fuel : Nat) (client : Client)
    (s : LoopState) (w : WireHeader) :
    ((s.db.headers.filter (fun r => r.Number == sub64 w.number trailHeight)).isEmpty = true →
      trailStep keccak fuel client s w = .ok s)
    ∧ (((s.db.headers.filter (fun r => r.Number == sub64 w.number trailHeight)).filter
          (fun r => !r.Orphan)).length = 1 →
        trailStep keccak fuel client s w = .ok s)
    ∧ (∀ (bl : Block) (db2 : DB) (hd : Header),
        (s.db.headers.filter (fun r => r.Number == sub64 w.number trailHeight)).isEmpty = false →
        ((s.db.headers.filter (fun r => r.Number == sub64 w.number trailHeight)).filter
          (fun r => !r.Orphan)).length ≠ 1 →
        client.blockByNumber trailHeight = some bl →
        handleHeader keccak fuel client s.db bl.header false "" = .ok (db2, hd) →
        trailStep keccak fuel client s w = .ok { s with db := db2 }) := by
  refine ⟨?_, ?_, ?_⟩
  · intro hempty
    simp only [trailStep]
    rw [hempty]
    simp
  · intro hcount
    by_cases hempty : (s.db.headers.filter
        (fun r => r.Number == sub64 w.number trailHeight)).isEmpty = true
    · simp only [trailStep]
      rw [hempty]
      simp
    · simp only [trailStep]
      rw [Bool.not_eq_true] at hempty
      rw [hempty, hcount]
      simp
  · intro bl db2 hd hempty hcount hbl hhh
    have h1 : ((s.db.headers.filter (fun r => r.Number == sub64 w.number trailHeight)).filter
        (fun r => !r.Orphan)).length < 1 ∨
        ((s.db.headers.filter (fun r => r.Number == sub64 w.number trailHeight)).filter
        (fun r => !r.Orphan)).length > 1 := by omega
    simp only [trailStep]
    rw [hempty]
    rcases h1 with h | h
    · rw [if_neg (by simp), if_pos (Bool.or_inl (decide_eq_true h))]
      simp only [hbl, hhh]
    · rw [if_neg (by simp), if_pos (Bool.or_inr (decide_eq_true h))]
      simp only [hbl, hhh]

/-- Witness for C1's amended behaviour: the empty-store no-op, the
one-canonical no-op, and the corrective fetch landing at height 10. -/
theorem trailing_pass_amended_witness :
    (trailStep keccak0 3 clientC1 stC1empty wC1head = .ok stC1empty)
    ∧ (trailStep keccak0 3 clientC1 stC1canon wC1head = .ok stC1canon)
    ∧ (trailStep keccak0 3 clientC1 stC1 wC1head).isOk = true := by
  refine ⟨?_, ?_, ?_⟩
  · exact (trailing_pass_amended keccak0 3 clientC1 stC1empty wC1head).1 (by decide)
  · exact (trailing_pass_amended keccak0 3 clientC1 stC1canon wC1head).2.1 (by decide)
  · cases hh : handleHeader keccak0 3 clientC1 stC1.db (mkBlock wC1canon10 []).header false "" with
    | error e =>
      have hok : (handleHeader keccak0 3 clientC1 stC1.db
          (mkBlock wC1canon10 []).header false "").isOk = true := by
        decide
      rw [hh] at hok
      exact Bool.noConfusion hok
    | ok p =>
      have hres := (trailing_pass_amended keccak0 3 clientC1 stC1 wC1head).2.2
        (mkBlock wC1canon10 []) p.1 p.2 (by decide) (by decide) rfl (by rw [hh])
      rw [hres]
      rfl

/-! ## Claim C2: uncle processing -/

/-- C2 evaluation: processing the canonical head at height 101 that cites
the uncle at height 100 stores the uncle row with `orphan=true` and
`uncleBy` equal to the citing hash and the head row as canonical — but it
fetches and stores NO canonical block at the uncle's height: the store
ends with zero canonical rows at height 100, although the node would have
served the canonical block at that height. -/
theorem uncle_event_no_canonical_fetch :
    (headStep keccak0 3 clientC2 stC2 wC2head).map (fun s' =>
      (s'.db.headers.map (fun r => (r.Number, r.Orphan, r.UncleBy)),
       countCanonicalAt s'.db.headers 100))
    = .ok ([(100, true, hashHex 22), (101, false, "")], 0)
    ∧ clientC2.blockByNumber 100 = some (mkBlock (mkWire 23 11 emptyUncleHash 100) []) :=
  ⟨rfl, rfl⟩

/-! ## Claim C8: sender-recovery failure is fatal, not recorded -/

/-- C8 evaluation: a block containing a transaction whose chain-ID-bound
sender recovery fails makes `handleHeader` return the error — the header
row is never upserted and no error string is recorded on it — and the
side-head branch turns that error into loop abort (the caller sends the
interrupt that shuts the process down). -/
theorem sender_recovery_failure_aborts :
    handleHeader keccak0 3 clientC8 dbEmpty wC8 false ""
      = .error "invalid transaction v, r, s values"
    ∧ sideStep keccak0 3 clientC8 stC8 wC8 = .error "invalid transaction v, r, s values" :=
  ⟨rfl, rfl⟩

/-! ## Lemmas: shapes of the rendered strings -/

theorem hexDigitsAux_fuel (n : Nat) :
    ∀ fuel, n < fuel → hexDigitsAux fuel n = hexDigitsAux (n + 1) n := by
  induction n using Nat.strong_induction_on with
  | _ n ih =>
    intro fuel hf
    cases fuel with
    | zero => omega
    | succ f =>
      show (if n = 0 then [] else hexDigitsAux f (n / 16) ++ [hexDigit (n % 16)]) = _
      by_cases h0 : n = 0
      · rw [if_pos h0]
        show _ = (if n = 0 then [] else hexDigitsAux n (n / 16) ++ [hexDigit (n % 16)])
        rw [if_pos h0]
      · rw [if_neg h0]
        show _ = (if n = 0 then [] else hexDigitsAux n (n / 16) ++ [hexDigit (n % 16)])
        rw [if_neg h0]
        have hd : n / 16 < n := Nat.div_lt_self (Nat.pos_of_ne_zero h0) (by omega)
        rw [ih (n / 16) hd f (by omega), ih (n / 16) hd n hd]

theorem hexDigits_eq (n : Nat) :
    hexDigits n = if n = 0 then [] else hexDigits (n / 16) ++ [hexDigit (n % 16)] := by
  show hexDigitsAux (n + 1) n = _
  by_cases h0 : n = 0
  · rw [if_pos h0]
    show (if n = 0 then [] else hexDigitsAux n (n / 16) ++ [hexDigit (n % 16)]) = []
    rw [if_pos h0]
  · rw [if_neg h0]
    show (if n = 0 then [] else hexDigitsAux n (n / 16) ++ [hexDigit (n % 16)]) = _
    rw [if_neg h0]
    rw [hexDigitsAux_fuel (n / 16) n (Nat.div_lt_self (Nat.pos_of_ne_zero h0) (by omega))]
    rfl

theorem decDigitsAux_fuel (n : Nat) :
    ∀ fuel, n < fuel → decDigitsAux fuel n = decDigitsAux (n + 1) n := by
  induction n using Nat.strong_induction_on with
  | _ n ih =>
    intro fuel hf
    cases fuel with
    | zero => omega
    | succ f =>
      show (if n < 10 then [decDigit n] else decDigitsAux f (n / 10) ++ [decDigit (n % 10)]) = _
      by_cases h0 : n < 10
      · rw [if_pos h0]
        show _ = (if n < 10 then [decDigit n] else decDigitsAux n (n / 10) ++ [decDigit (n % 10)])
        rw [if_pos h0]
      · rw [if_neg h0]
        show _ = (if n < 10 then [decDigit n] else decDigitsAux n (n / 10) ++ [decDigit (n % 10)])
        rw [if_neg h0]
        have hd : n / 10 < n := Nat.div_lt_self (by omega) (by omega)
        rw [ih (n / 10) hd f (by omega), ih (n / 10) hd n hd]

theorem decDigits_eq (n : Nat) :
    decDigits n = if n < 10 then [decDigit n] else decDigits (n / 10) ++ [decDigit (n % 10)] := by
  show decDigitsAux (n + 1) n = _
  by_cases h0 : n < 10
  · rw [if_pos h0]
    show (if n < 10 then [decDigit n] else decDigitsAux n (n / 10) ++ [decDigit (n % 10)])
      = [decDigit n]
    rw [if_pos h0]
  · rw [if_neg h0]
    show (if n < 10 then [decDigit n] else decDigitsAux n (n / 10) ++ [decDigit (n % 10)]) = _
    rw [if_neg h0]
    rw [decDigitsAux_fuel (n / 10) n (Nat.div_lt_self (by omega) (by omega))]
    rfl

theorem charToNat_ofNat_valid (n : Nat) (h : Nat.isValidChar n) : (Char.ofNat n).toNat = n := by
  unfold Char.ofNat
  rw [dif_pos h]
  rfl

theorem hexDigit_isHexChar (n : Nat) : isHexChar (hexDigit n) = true := by
  have hm : n % 16 < 16 := Nat.mod_lt _ (by omega)
  have hme : hexDigit n = hexDigit (n % 16) := by
    unfold hexDigit
    rw [Nat.mod_mod_of_dvd n (dvd_refl 16)]
  have hall : ∀ m, m < 16 → isHexChar (hexDigit m) = true := by decide
  rw [hme]
  exact hall _ hm

theorem hexCharVal_hexDigit (n : Nat) : hexCharVal (hexDigit n) = n % 16 := by
  have hm : n % 16 < 16 := Nat.mod_lt _ (by omega)
  have hme : hexDigit n = hexDigit (n % 16) := by
    unfold hexDigit
    rw [Nat.mod_mod_of_dvd n (dvd_refl 16)]
  have hall : ∀ m, m < 16 → hexCharVal (hexDigit m) = m := by decide
  rw [hme]
  exact hall _ hm

theorem fixedHex_all_hex (w : Nat) : ∀ n, (fixedHex w n).all isHexChar = true := by
  induction w with
  | zero => intro n; rfl
  | succ w ih =>
    intro n
    show ((fixedHex w (n / 16)) ++ [hexDigit (n % 16)]).all isHexChar = true
    rw [List.all_append, ih (n / 16)]
    simp [hexDigit_isHexChar]

theorem fixedHex_length (w : Nat) : ∀ n, (fixedHex w n).length = w := by
  induction w with
  | zero => intro n; rfl
  | succ w ih =>
    intro n
    show ((fixedHex w (n / 16)) ++ [hexDigit (n % 16)]).length = w + 1
    rw [List.length_append, ih (n / 16)]
    rfl

theorem hexDigits_all_hex (n : Nat) : (hexDigits n).all isHexChar = true := by
  induction n using Nat.strong_induction_on with
  | _ n ih =>
    rw [hexDigits_eq]
    split
    · rfl
    · next h =>
      rw [List.all_append, ih (n / 16) (Nat.div_lt_self (Nat.pos_of_ne_zero h) (by omega))]
      simp [hexDigit_isHexChar]

theorem hexDigits_ne_nil (n : Nat) (h : n ≠ 0) : (hexDigits n).isEmpty = false := by
  rw [hexDigits_eq]
  rw [if_neg h]
  simp

theorem hexListVal_append (cs : List Char) (c : Char) :
    hexListVal (cs ++ [c]) = hexListVal cs * 16 + hexCharVal c := by
  unfold hexListVal
  rw [List.foldl_append]
  rfl

theorem hexListVal_hexDigits (n : Nat) : hexListVal (hexDigits n) = n := by
  induction n using Nat.strong_induction_on with
  | _ n ih =>
    rw [hexDigits_eq]
    split
    · next h => rw [h]; rfl
    · next h =>
      rw [hexListVal_append, ih (n / 16) (Nat.div_lt_self (Nat.pos_of_ne_zero h) (by omega)),
        hexCharVal_hexDigit]
      omega

theorem hexListVal_fixedHex (w : Nat) : ∀ n, n < 16 ^ w → hexListVal (fixedHex w n) = n := by
  induction w with
  | zero =>
    intro n hn
    interval_cases n
    rfl
  | succ w ih =>
    intro n hn
    show hexListVal ((fixedHex w (n / 16)) ++ [hexDigit (n % 16)]) = n
    have hdiv : n / 16 < 16 ^ w := by
      rw [Nat.div_lt_iff_lt_mul (by omega)]
      rw [← pow_succ]
      exact hn
    rw [hexListVal_append, ih (n / 16) hdiv, hexCharVal_hexDigit]
    omega

theorem decDigit_isDigit (n : Nat) : (decDigit n).isDigit = true := by
  have hm : n % 10 < 10 := Nat.mod_lt _ (by omega)
  have hme : decDigit n = decDigit (n % 10) := by
    unfold decDigit
    rw [Nat.mod_mod_of_dvd n (dvd_refl 10)]
  have hall : ∀ m, m < 10 → (decDigit m).isDigit = true := by decide
  rw [hme]
  exact hall _ hm

theorem decDigits_all_digit (n : Nat) : (decDigits n).all (fun c => c.isDigit) = true := by
  induction n using Nat.strong_induction_on with
  | _ n ih =>
    rw [decDigits_eq]
    split
    · simp [decDigit_isDigit]
    · next h =>
      rw [List.all_append, ih (n / 10) (Nat.div_lt_self (by omega) (by omega))]
      simp [decDigit_isDigit]

theorem decDigits_ne_nil (n : Nat) : (decDigits n).isEmpty = false := by
  rw [decDigits_eq]
  split
  · rfl
  · simp

theorem isDecString_decString (n : Nat) : isDecString (decString n) = true := by
  unfold isDecString decString
  rw [show (String.mk (decDigits n)).data = decDigits n from rfl]
  rw [decDigits_all_digit, decDigits_ne_nil]
  rfl

theorem isEmptyFalse_of_length {α : Type} (l : List α) (h : 0 < l.length) :
    l.isEmpty = false := by
  cases l
  · simp at h
  · rfl

theorem isLowerHex0x_mk (cs : List Char) (h1 : cs.isEmpty = false)
    (h2 : cs.all isHexChar = true) :
    isLowerHex0x (String.mk ('0' :: 'x' :: cs)) = true := by
  show (!cs.isEmpty && cs.all isHexChar) = true
  rw [h1, h2]
  rfl

theorem fromHex0x_mk (cs : List Char) (h1 : cs.isEmpty = false) :
    fromHex0x (String.mk ('0' :: 'x' :: cs)) = some (hexListVal cs) := by
  show (if cs.isEmpty then none else some (hexListVal cs)) = some (hexListVal cs)
  rw [h1]
  rfl

theorem isLowerHex0x_hashHex (n : Nat) : isLowerHex0x (hashHex n) = true := by
  unfold hashHex
  exact isLowerHex0x_mk _ (isEmptyFalse_of_length _ (by rw [fixedHex_length]; omega))
    (fixedHex_all_hex _ _)

theorem fromHex0x_hashHex (n : Nat) (h : n < 2 ^ 256) : fromHex0x (hashHex n) = some n := by
  unfold hashHex
  rw [fromHex0x_mk _ (isEmptyFalse_of_length _ (by rw [fixedHex_length]; omega))]
  rw [hexListVal_fixedHex 64 n (by rw [show (16 : Nat) ^ 64 = 2 ^ 256 from by norm_num]; exact h)]

theorem isLowerHex0x_nonceString (n : Nat) : isLowerHex0x (nonceString n) = true := by
  unfold nonceString
  exact isLowerHex0x_mk _ (isEmptyFalse_of_length _ (by rw [fixedHex_length]; omega))
    (fixedHex_all_hex _ _)

theorem fromHex0x_nonceString (n : Nat) (h : n < 2 ^ 64) :
    fromHex0x (nonceString n) = some n := by
  unfold nonceString
  rw [fromHex0x_mk _ (isEmptyFalse_of_length _ (by rw [fixedHex_length]; omega))]
  rw [hexListVal_fixedHex 16 n (by rw [show (16 : Nat) ^ 16 = 2 ^ 64 from by norm_num]; exact h)]

theorem isLowerHex0x_hexutilBigString (n : Nat) :
    isLowerHex0x (hexutilBigString n) = true := by
  unfold hexutilBigString
  split
  · rfl
  · next h => exact isLowerHex0x_mk _ (hexDigits_ne_nil n h) (hexDigits_all_hex n)

theorem fromHex0x_hexutilBigString (n : Nat) : fromHex0x (hexutilBigString n) = some n := by
  unfold hexutilBigString
  split
  · next h => rw [h]; rfl
  · next h =>
    rw [fromHex0x_mk _ (hexDigits_ne_nil n h), hexListVal_hexDigits]

theorem eip55Char_hexAny (nib : Nat) (c : Char) (h : isHexChar c = true) :
    isHexCharAny (eip55Char nib c) = true := by
  unfold isHexChar at h
  simp only [Bool.or_eq_true, Bool.and_eq_true, decide_eq_true_eq] at h
  unfold eip55Char
  split
  · next hc =>
    simp only [Bool.and_eq_true, decide_eq_true_eq] at hc
    have hv : (Char.ofNat (c.toNat - 32)).toNat = c.toNat - 32 :=
      charToNat_ofNat_valid _ (Or.inl (by omega))
    unfold isHexCharAny isHexChar
    simp only [Bool.or_eq_true, Bool.and_eq_true, decide_eq_true_eq, hv]
    omega
  · unfold isHexCharAny isHexChar
    simp only [Bool.or_eq_true, Bool.and_eq_true, decide_eq_true_eq]
    omega

theorem eip55_all_hexAny (keccak : List Char → Nat → Nat) (cs : List Char)
    (h : cs.all isHexChar = true) : (eip55 keccak cs).all isHexCharAny = true := by
  unfold eip55
  rw [List.all_eq_true] at h ⊢
  intro x hx
  obtain ⟨p, hp, hpe⟩ := List.mem_map.mp hx
  have hp2 : p.2 ∈ cs := by
    have := List.enum_map_snd cs ▸ List.mem_map_of_mem Prod.snd hp
    simpa using this
  rw [← hpe]
  exact eip55Char_hexAny _ _ (h _ hp2)

theorem isHex0x_addressHex (keccak : List Char → Nat → Nat) (a : Nat) :
    isHex0x (addressHex keccak a) = true := by
  unfold addressHex
  show (!(eip55 keccak (fixedHex 40 a)).isEmpty
      && (eip55 keccak (fixedHex 40 a)).all isHexCharAny) = true
  rw [eip55_all_hexAny _ _ (fixedHex_all_hex _ _)]
  have hlen : (eip55 keccak (fixedHex 40 a)).length = 40 := by
    unfold eip55
    rw [List.length_map, List.enum_length, fixedHex_length]
  rw [isEmptyFalse_of_length _ (by rw [hlen]; omega)]
  rfl

theorem appHeader_proj (keccak : List Char → Nat → Nat) (w : WireHeader) :
    (appHeader keccak w).Hash = hashHex w.hashVal
    ∧ (appHeader keccak w).ParentHash = hashHex w.parentHash
    ∧ (appHeader keccak w).UncleHash = hashHex w.uncleHash
    ∧ (appHeader keccak w).Coinbase = addressHex keccak w.coinbase
    ∧ (appHeader keccak w).Root = hashHex w.root
    ∧ (appHeader keccak w).TxHash = hashHex w.txHash
    ∧ (appHeader keccak w).ReceiptHash = hashHex w.receiptHash
    ∧ (appHeader keccak w).Difficulty = hexutilBigString w.difficulty
    ∧ (appHeader keccak w).Number = w.number % 2 ^ 64
    ∧ (appHeader keccak w).MixDigest = hashHex w.mixDigest
    ∧ (appHeader keccak w).Nonce = nonceString w.nonce
    ∧ (appHeader keccak w).Orphan = false
    ∧ (appHeader keccak w).UncleBy = "" := by
  cases hb : w.baseFee <;> simp [appHeader, hb]

theorem appHeader_BaseFee_none (keccak : List Char → Nat → Nat) (w : WireHeader)
    (hb : w.baseFee = none) : (appHeader keccak w).BaseFee = "" := by
  simp [appHeader, hb]

theorem appHeader_BaseFee_some (keccak : List Char → Nat → Nat) (w : WireHeader) (bf : Nat)
    (hb : w.baseFee = some bf) : (appHeader keccak w).BaseFee = decString bf := by
  simp [appHeader, hb]

/-! ## Claim C7: normalizer string formats -/

/-- C7 counterexample: `appHeader` renders difficulty 255 as the
`hexutil` hex string `"0xff"` — not the decimal string `"255"` — and the
nonce as a 16-digit hex string, also not decimal; the claim says both are
decimal strings. -/
theorem appHeader_difficulty_not_decimal :
    (appHeader keccak0 wC7).Difficulty = "0xff"
    ∧ isDecString (appHeader keccak0 wC7).Difficulty = false
    ∧ decString 255 = "255"
    ∧ isDecString (appHeader keccak0 wC7).Nonce = false :=
  ⟨rfl, rfl, rfl, rfl⟩

/-- C7 (amended): `appHeader` renders every hash field as a lowercase
`0x`-prefixed hex string, the miner address as a `0x`-prefixed hex string
in EIP-55 checksum casing (possibly mixed case, for every keccak), and
the big-integer fields difficulty and nonce as `0x`-prefixed lowercase
hex strings — not decimal; `baseFee` alone is a decimal string, and the
empty string when absent. The hex renderings lose no information: the
digest, difficulty and nonce values parse back exactly. -/
theorem appHeader_formats (keccak : List Char → Nat → Nat) (w : WireHeader)
    (hh : w.hashVal < 2 ^ 256) (hn : w.nonce < 2 ^ 64) :
    isLowerHex0x (appHeader keccak w).Hash = true
    ∧ isLowerHex0x (appHeader keccak w).ParentHash = true
    ∧ isLowerHex0x (appHeader keccak w).UncleHash = true
    ∧ isLowerHex0x (appHeader keccak w).Root = true
    ∧ isLowerHex0x (appHeader keccak w).TxHash = true
    ∧ isLowerHex0x (appHeader keccak w).ReceiptHash = true
    ∧ isLowerHex0x (appHeader keccak w).MixDigest = true
    ∧ isHex0x (appHeader keccak w).Coinbase = true
    ∧ (appHeader keccak w).Difficulty = hexutilBigString w.difficulty
    ∧ isLowerHex0x (appHeader keccak w).Difficulty = true
    ∧ isLowerHex0x (appHeader keccak w).Nonce = true
    ∧ (w.baseFee = none → (appHeader keccak w).BaseFee = "")
    ∧ (∀ bf, w.baseFee = some bf →
        (appHeader keccak w).BaseFee = decString bf
        ∧ isDecString (appHeader keccak w).BaseFee = true)
    ∧ fromHex0x (appHeader keccak w).Hash = some w.hashVal
    ∧ fromHex0x (appHeader keccak w).Difficulty = some w.difficulty
    ∧ fromHex0x (appHeader keccak w).Nonce = some w.nonce := by
  obtain ⟨e1, e2, e3, e4, e5, e6, e7, e8, _, e10, e11, _, _⟩ := appHeader_proj keccak w
  refine ⟨?_, ?_, ?_, ?_, ?_, ?_, ?_, ?_, ?_, ?_, ?_, ?_, ?_, ?_, ?_, ?_⟩
  · rw [e1]; exact isLowerHex0x_hashHex _
  · rw [e2]; exact isLowerHex0x_hashHex _
  · rw [e3]; exact isLowerHex0x_hashHex _
  · rw [e5]; exact isLowerHex0x_hashHex _
  · rw [e6]; exact isLowerHex0x_hashHex _
  · rw [e7]; exact isLowerHex0x_hashHex _
  · rw [e10]; exact isLowerHex0x_hashHex _
  · rw [e4]; exact isHex0x_addressHex _ _
  · exact e8
  · rw [e8]; exact isLowerHex0x_hexutilBigString _
  · rw [e11]; exact isLowerHex0x_nonceString _
  · intro hb; exact appHeader_BaseFee_none _ _ hb
  · intro bf hb
    rw [appHeader_BaseFee_some _ _ _ hb]
    exact ⟨rfl, isDecString_decString _⟩
  · rw [e1]; exact fromHex0x_hashHex _ hh
  · rw [e8]; exact fromHex0x_hexutilBigString _
  · rw [e11]; exact fromHex0x_nonceString _ hn

/-- Witness for C7's amended statement at the concrete header `wC7`
(difficulty 255, nonce 6, base fee 1000). -/
theorem appHeader_formats_witness :
    isLowerHex0x (appHeader keccak0 wC7).Hash = true
    ∧ isLowerHex0x (appHeader keccak0 wC7).Difficulty = true
    ∧ (∀ bf, wC7.baseFee = some bf →
        (appHeader keccak0 wC7).BaseFee = decString bf
        ∧ isDecString (appHeader keccak0 wC7).BaseFee = true)
    ∧ fromHex0x (appHeader keccak0 wC7).Hash = some wC7.hashVal
    ∧ fromHex0x (appHeader keccak0 wC7).Nonce = some wC7.nonce := by
  have h := appHeader_formats keccak0 wC7 (by decide) (by decide)
  exact ⟨h.1, h.2.2.2.2.2.2.2.2.2.1, h.2.2.2.2.2.2.2.2.2.2.2.2.1,
    h.2.2.2.2.2.2.2.2.2.2.2.2.2.1, h.2.2.2.2.2.2.2.2.2.2.2.2.2.2.2⟩

/-! ## Lemmas: the at-most-one-canonical-per-height invariant -/

theorem countCanonicalAt_cons (r : Header) (rows : List Header) (n : Nat) :
    countCanonicalAt (r :: rows) n
      = (if (r.Number == n && !r.Orphan) = true then 1 else 0) + countCanonicalAt rows n := by
  unfold countCanonicalAt
  rw [List.filter_cons]
  split <;> simp [Nat.add_comm]

theorem countCanonicalAt_append (rows1 rows2 : List Header) (n : Nat) :
    countCanonicalAt (rows1 ++ rows2) n
      = countCanonicalAt rows1 n + countCanonicalAt rows2 n := by
  unfold countCanonicalAt
  rw [List.filter_append, List.length_append]

theorem countCanonicalAt_map_le (rows : List Header) (g : Header → Header) (n : Nat)
    (hg : ∀ r ∈ rows, (g r).Number = r.Number)
    (hg2 : ∀ r ∈ rows, r.Number = n → (g r).Orphan = false → r.Orphan = false) :
    countCanonicalAt (rows.map g) n ≤ countCanonicalAt rows n := by
  induction rows with
  | nil => exact Nat.le_refl _
  | cons r rows ih =>
    rw [List.map_cons, countCanonicalAt_cons, countCanonicalAt_cons]
    have htail := ih (fun a ha => hg a (List.mem_cons_of_mem _ ha))
      (fun a ha => hg2 a (List.mem_cons_of_mem _ ha))
    by_cases hcond : ((g r).Number == n && !(g r).Orphan) = true
    · simp only [Bool.and_eq_true, beq_iff_eq, Bool.not_eq_true'] at hcond
      have h1 : r.Number = n := by
        rw [← hg r (List.mem_cons_self _ _)]; exact hcond.1
      have h2 : r.Orphan = false := hg2 r (List.mem_cons_self _ _) h1 hcond.2
      rw [if_pos (by simp [hcond.1, hcond.2]), if_pos (by simp [h1, h2])]
      omega
    · rw [if_neg hcond]
      split <;> omega

theorem demoteSiblings_is_map (rows : List Header) (nn : Nat) (hs : String) :
    demoteSiblings rows nn hs
      = rows.map (fun r =>
          if (r.Number == nn && r.Hash != hs) = true then { r with Orphan := true } else r) := rfl

theorem demote_g_Number (nn : Nat) (hs : String) (r : Header) :
    (if (r.Number == nn && r.Hash != hs) = true then { r with Orphan := true } else r).Number
      = r.Number := by
  split <;> rfl

theorem demote_g_Hash (nn : Nat) (hs : String) (r : Header) :
    (if (r.Number == nn && r.Hash != hs) = true then { r with Orphan := true } else r).Hash
      = r.Hash := by
  split <;> rfl

theorem demote_g_Orphan (nn : Nat) (hs : String) (r : Header) :
    ((if (r.Number == nn && r.Hash != hs) = true then { r with Orphan := true } else r).Orphan
        = false) → r.Orphan = false := by
  split
  · intro h; cases h
  · exact id

theorem demoteSiblings_canonical_hash (rows : List Header) (nn : Nat) (hs : String) :
    ∀ r ∈ demoteSiblings rows nn hs, r.Number = nn → r.Orphan = false → r.Hash = hs := by
  intro r hr h1 h2
  rw [demoteSiblings_is_map] at hr
  obtain ⟨r0, hr0, he⟩ := List.mem_map.mp hr
  by_cases hcond : (r0.Number == nn && r0.Hash != hs) = true
  · rw [if_pos hcond] at he
    rw [← he] at h2
    cases h2
  · rw [if_neg hcond] at he
    subst he
    simp only [Bool.and_eq_true, beq_iff_eq, bne_iff_ne, not_and] at hcond
    by_contra hne
    exact (hcond h1) hne

theorem demoteSiblings_demotes (rows : List Header) (nn : Nat) (hs : String) :
    ∀ r ∈ demoteSiblings rows nn hs, r.Number = nn → r.Hash ≠ hs → r.Orphan = true := by
  intro r hr h1 h2
  by_contra ho
  rw [Bool.not_eq_true] at ho
  exact h2 (demoteSiblings_canonical_hash rows nn hs r hr h1 ho)

theorem HashesDistinct_map (rows : List Header) (g : Header → Header)
    (hg : ∀ r, (g r).Hash = r.Hash) (hd : HashesDistinct rows) :
    HashesDistinct (rows.map g) := by
  unfold HashesDistinct at *
  rw [List.pairwise_map]
  exact hd.imp (fun hab => by rw [hg, hg]; exact hab)

theorem NumbersConsistent_map (num : String → Nat) (rows : List Header) (g : Header → Header)
    (hgN : ∀ r, (g r).Number = r.Number) (hgH : ∀ r, (g r).Hash = r.Hash)
    (hn : NumbersConsistent num rows) : NumbersConsistent num (rows.map g) := by
  intro r hr
  obtain ⟨r0, hr0, he⟩ := List.mem_map.mp hr
  rw [← he, hgN, hgH]
  exact hn r0 hr0

theorem count_le_one_of_all_hash (rows : List Header) (n : Nat) (hs : String)
    (hd : HashesDistinct rows)
    (hall : ∀ r ∈ rows, r.Number = n → r.Orphan = false → r.Hash = hs) :
    countCanonicalAt rows n ≤ 1 := by
  induction rows with
  | nil => exact Nat.zero_le 1
  | cons r rows ih =>
    have hd' : HashesDistinct rows := (List.pairwise_cons.mp hd).2
    rw [countCanonicalAt_cons]
    split
    · next hc =>
      simp only [Bool.and_eq_true, beq_iff_eq, Bool.not_eq_true'] at hc
      have hr : r.Hash = hs := hall r (List.mem_cons_self _ _) hc.1 hc.2
      have hzero : countCanonicalAt rows n = 0 := by
        unfold countCanonicalAt
        rw [List.length_eq_zero]
        rw [List.filter_eq_nil_iff]
        intro a ha hpa
        simp only [Bool.and_eq_true, beq_iff_eq, Bool.not_eq_true'] at hpa
        have ha2 : a.Hash = hs := hall a (List.mem_cons_of_mem _ ha) hpa.1 hpa.2
        exact (List.pairwise_cons.mp hd).1 a ha (hr.trans ha2.symm)
      omega
    · have := ih hd' (fun a ha h1 h2 => hall a (List.mem_cons_of_mem _ ha) h1 h2)
      omega

theorem upsert_g_Hash (h : Header) (cols : List String) (r : Header) :
    ((if (r.Hash == h.Hash) = true then assignColsTo cols h r else r)).Hash = r.Hash := by
  split
  · exact assignColsTo_Hash _ _ _
  · rfl

theorem upsert_g_Number (h : Header) (cols : List String) (r : Header) :
    ((if (r.Hash == h.Hash) = true then assignColsTo cols h r else r)).Number = r.Number := by
  split
  · exact assignColsTo_Number _ _ _
  · rfl

theorem upsertHeaderRow_HashesDistinct (rows : List Header) (h : Header) (cols : List String)
    (hd : HashesDistinct rows) : HashesDistinct (upsertHeaderRow rows h cols) := by
  by_cases hc : rows.any (fun r => r.Hash == h.Hash) = true
  · rw [upsertHeaderRow_update _ _ _ hc]
    exact HashesDistinct_map _ _ (upsert_g_Hash h cols) hd
  · rw [upsertHeaderRow_insert _ _ _ (by simpa using hc)]
    unfold HashesDistinct at *
    rw [List.pairwise_append]
    refine ⟨hd, List.pairwise_singleton _ _, ?_⟩
    intro a ha b hb
    rw [List.mem_singleton] at hb
    subst hb
    simp only [List.any_eq_true, not_exists] at hc
    intro he
    exact hc a ⟨ha, beq_iff_eq.mpr he⟩

theorem upsertHeaderRow_NumbersConsistent (num : String → Nat) (rows : List Header) (h : Header)
    (cols : List String) (hn : NumbersConsistent num rows) (hh : h.Number = num h.Hash) :
    NumbersConsistent num (upsertHeaderRow rows h cols) := by
  by_cases hc : rows.any (fun r => r.Hash == h.Hash) = true
  · rw [upsertHeaderRow_update _ _ _ hc]
    exact NumbersConsistent_map num _ _ (upsert_g_Number h cols) (upsert_g_Hash h cols) hn
  · rw [upsertHeaderRow_insert _ _ _ (by simpa using hc)]
    intro r hr
    rcases List.mem_append.mp hr with h1 | h2
    · exact hn r h1
    · rw [List.mem_singleton] at h2
      subst h2
      exact hh

theorem upsertHeaderRow_count_le_orphan (rows : List Header) (h : Header) (cols : List String)
    (n : Nat) (hO : h.Orphan = true) :
    countCanonicalAt (upsertHeaderRow rows h cols) n ≤ countCanonicalAt rows n := by
  by_cases hc : rows.any (fun r => r.Hash == h.Hash) = true
  · rw [upsertHeaderRow_update _ _ _ hc]
    apply countCanonicalAt_map_le
    · intro r _; exact upsert_g_Number h cols r
    · intro r _ _ hor
      by_cases hb : (r.Hash == h.Hash) = true
      · rw [if_pos hb, assignColsTo_eq] at hor
        simp only at hor
        split at hor
        · rw [hO] at hor; cases hor
        · exact hor
      · rw [if_neg hb] at hor
        exact hor
  · rw [upsertHeaderRow_insert _ _ _ (by simpa using hc), countCanonicalAt_append]
    have : countCanonicalAt [h] n = 0 := by
      rw [countCanonicalAt_cons]
      rw [if_neg (by simp [hO])]
      rfl
    omega

theorem upsertHeaderRow_count_le_ne (num : String → Nat) (rows : List Header) (h : Header)
    (cols : List String) (n : Nat) (hn : NumbersConsistent num rows)
    (hh : h.Number = num h.Hash) (hne : n ≠ h.Number) :
    countCanonicalAt (upsertHeaderRow rows h cols) n ≤ countCanonicalAt rows n := by
  by_cases hc : rows.any (fun r => r.Hash == h.Hash) = true
  · rw [upsertHeaderRow_update _ _ _ hc]
    apply countCanonicalAt_map_le
    · intro r _; exact upsert_g_Number h cols r
    · intro r hr hrn hor
      by_cases hb : (r.Hash == h.Hash) = true
      · exfalso
        have : r.Number = h.Number := by
          rw [hn r hr, beq_iff_eq.mp hb, ← hh]
        omega
      · rw [if_neg hb] at hor
        exact hor
  · rw [upsertHeaderRow_insert _ _ _ (by simpa using hc), countCanonicalAt_append]
    have : countCanonicalAt [h] n = 0 := by
      rw [countCanonicalAt_cons]
      rw [if_neg (by simp; intro he; omega)]
      rfl
    omega

theorem upsertHeaderRow_all_hash (num : String → Nat) (rows : List Header) (h : Header)
    (cols : List String) (hn : NumbersConsistent num rows) (hh : h.Number = num h.Hash) :
    ∀ r ∈ demoteSiblings (upsertHeaderRow rows h cols) h.Number h.Hash,
      r.Number = h.Number → r.Orphan = false → r.Hash = h.Hash :=
  demoteSiblings_canonical_hash _ _ _

theorem rows_inv_demote (num : String → Nat) (rows : List Header) (nn : Nat) (hs : String)
    (hd : HashesDistinct rows) (hn : NumbersConsistent num rows)
    (hc : AtMostOneCanonical rows) :
    HashesDistinct (demoteSiblings rows nn hs)
    ∧ NumbersConsistent num (demoteSiblings rows nn hs)
    ∧ AtMostOneCanonical (demoteSiblings rows nn hs) := by
  rw [demoteSiblings_is_map]
  refine ⟨HashesDistinct_map _ _ (demote_g_Hash nn hs) hd,
    NumbersConsistent_map num _ _ (demote_g_Number nn hs) (demote_g_Hash nn hs) hn, ?_⟩
  intro n
  calc countCanonicalAt (rows.map _) n
      ≤ countCanonicalAt rows n :=
        countCanonicalAt_map_le _ _ _ (fun r _ => demote_g_Number nn hs r)
          (fun r _ _ => demote_g_Orphan nn hs r)
    _ ≤ 1 := hc n

theorem rows_inv_orphan (num : String → Nat) (rows : List Header) (h : Header)
    (cols : List String) (hd : HashesDistinct rows) (hn : NumbersConsistent num rows)
    (hc : AtMostOneCanonical rows) (hO : h.Orphan = true) (hh : h.Number = num h.Hash) :
    HashesDistinct (upsertHeaderRow rows h cols)
    ∧ NumbersConsistent num (upsertHeaderRow rows h cols)
    ∧ AtMostOneCanonical (upsertHeaderRow rows h cols) := by
  refine ⟨upsertHeaderRow_HashesDistinct _ _ _ hd,
    upsertHeaderRow_NumbersConsistent num _ _ _ hn hh, ?_⟩
  intro n
  calc countCanonicalAt (upsertHeaderRow rows h cols) n
      ≤ countCanonicalAt rows n := upsertHeaderRow_count_le_orphan _ _ _ _ hO
    _ ≤ 1 := hc n

theorem rows_inv_canon (num : String → Nat) (rows : List Header) (h : Header)
    (cols : List String) (hd : HashesDistinct rows) (hn : NumbersConsistent num rows)
    (hc : AtMostOneCanonical rows) (hh : h.Number = num h.Hash) :
    HashesDistinct (demoteSiblings (upsertHeaderRow rows h cols) h.Number h.Hash)
    ∧ NumbersConsistent num (demoteSiblings (upsertHeaderRow rows h cols) h.Number h.Hash)
    ∧ AtMostOneCanonical (demoteSiblings (upsertHeaderRow rows h cols) h.Number h.Hash) := by
  have hd1 : HashesDistinct (upsertHeaderRow rows h cols) :=
    upsertHeaderRow_HashesDistinct _ _ _ hd
  have hn1 : NumbersConsistent num (upsertHeaderRow rows h cols) :=
    upsertHeaderRow_NumbersConsistent num _ _ _ hn hh
  have hd2 : HashesDistinct (demoteSiblings (upsertHeaderRow rows h cols) h.Number h.Hash) := by
    rw [demoteSiblings_is_map]
    exact HashesDistinct_map _ _ (demote_g_Hash _ _) hd1
  have hn2 : NumbersConsistent num
      (demoteSiblings (upsertHeaderRow rows h cols) h.Number h.Hash) := by
    rw [demoteSiblings_is_map]
    exact NumbersConsistent_map num _ _ (demote_g_Number _ _) (demote_g_Hash _ _) hn1
  refine ⟨hd2, hn2, ?_⟩
  intro n
  by_cases hne : n = h.Number
  · subst hne
    exact count_le_one_of_all_hash _ _ _ hd2
      (demoteSiblings_canonical_hash _ _ _)
  · calc countCanonicalAt (demoteSiblings (upsertHeaderRow rows h cols) h.Number h.Hash) n
        ≤ countCanonicalAt (upsertHeaderRow rows h cols) n := by
          rw [demoteSiblings_is_map]
          exact countCanonicalAt_map_le _ _ _ (fun r _ => demote_g_Number _ _ r)
            (fun r _ _ => demote_g_Orphan _ _ r)
      _ ≤ countCanonicalAt rows n := upsertHeaderRow_count_le_ne num _ _ _ _ hn hh hne
      _ ≤ 1 := hc n

theorem DBInv_headers (num : String → Nat) (db : DB)
    (h1 : HashesDistinct db.headers) (h2 : NumbersConsistent num db.headers)
    (h3 : AtMostOneCanonical db.headers) : DBInv num db :=
  ⟨h1, h2, h3⟩

theorem DBInv_of_headers_eq (num : String → Nat) (db db' : DB)
    (he : db'.headers = db.headers) (hinv : DBInv num db) : DBInv num db' := by
  unfold DBInv at *
  rw [he]
  exact hinv

theorem DBInv_demote (num : String → Nat) (db : DB) (nn : Nat) (hs : String)
    (hinv : DBInv num db) :
    DBInv num { db with headers := demoteSiblings db.headers nn hs } := by
  obtain ⟨h1, h2, h3⟩ := hinv
  obtain ⟨g1, g2, g3⟩ := rows_inv_demote num db.headers nn hs h1 h2 h3
  exact ⟨g1, g2, g3⟩

theorem DBInv_CreateOrUpdate_orphan (num : String → Nat) (db : DB) (h : Header)
    (txes : List Tx) (cols : List String) (hinv : DBInv num db)
    (hO : h.Orphan = true) (hh : h.Number = num h.Hash) :
    DBInv num (Header.CreateOrUpdate db h txes cols) := by
  obtain ⟨h1, h2, h3⟩ := hinv
  obtain ⟨g1, g2, g3⟩ := rows_inv_orphan num db.headers h cols h1 h2 h3 hO hh
  unfold DBInv
  rw [CreateOrUpdate_headers]
  exact ⟨g1, g2, g3⟩

theorem DBInv_CreateOrUpdate_canon (num : String → Nat) (db : DB) (h : Header)
    (txes : List Tx) (cols : List String) (hinv : DBInv num db) (hh : h.Number = num h.Hash) :
    DBInv num { Header.CreateOrUpdate db h txes cols with
      headers := demoteSiblings (Header.CreateOrUpdate db h txes cols).headers
        h.Number h.Hash } := by
  obtain ⟨h1, h2, h3⟩ := hinv
  obtain ⟨g1, g2, g3⟩ := rows_inv_canon num db.headers h cols h1 h2 h3 hh
  unfold DBInv
  rw [show ({ Header.CreateOrUpdate db h txes cols with
      headers := demoteSiblings (Header.CreateOrUpdate db h txes cols).headers
        h.Number h.Hash } : DB).headers
    = demoteSiblings (Header.CreateOrUpdate db h txes cols).headers h.Number h.Hash from rfl]
  rw [CreateOrUpdate_headers]
  exact ⟨g1, g2, g3⟩

theorem unclesPass_inv (num : String → Nat) (hh : DB → WireHeader → String → Except String DB)
    (hpres : ∀ db u ub db', DBInv num db → WireOk num u → hh db u ub = .ok db' →
      DBInv num db') :
    ∀ (us : List WireHeader) (db : DB) (hAcc : Header) (i : Nat) (db' : DB) (h' : Header),
      DBInv num db → (∀ u ∈ us, WireOk num u) →
      unclesPass hh db hAcc i us = .ok (db', h') →
      DBInv num db' ∧ h'.Hash = hAcc.Hash ∧ h'.Number = hAcc.Number
        ∧ h'.Orphan = hAcc.Orphan := by
  intro us
  induction us with
  | nil =>
    intro db hAcc i db' h' hinv hus hrun
    simp only [unclesPass, Except.ok.injEq, Prod.mk.injEq] at hrun
    obtain ⟨e1, e2⟩ := hrun
    subst e1
    subst e2
    exact ⟨hinv, rfl, rfl, rfl⟩
  | cons u us ih =>
    intro db hAcc i db' h' hinv hus hrun
    simp only [unclesPass] at hrun
    cases hcall : hh db u (if (i == 0) = true then { hAcc with Uncle1 := hashHex u.hashVal }
        else { hAcc with Uncle2 := hashHex u.hashVal }).Hash with
    | error e =>
      rw [hcall] at hrun
      cases hrun
    | ok db1 =>
      rw [hcall] at hrun
      have hinv1 : DBInv num db1 :=
        hpres db u _ db1 hinv (hus u (List.mem_cons_self _ _)) hcall
      have hrest := ih db1 _ (i + 1) db' h' hinv1
        (fun u' hu' => hus u' (List.mem_cons_of_mem _ hu')) hrun
      obtain ⟨ha, hb, hc2, hd2⟩ := hrest
      have hHash : (if (i == 0) = true then { hAcc with Uncle1 := hashHex u.hashVal }
          else { hAcc with Uncle2 := hashHex u.hashVal }).Hash = hAcc.Hash := by
        split <;> rfl
      have hNum : (if (i == 0) = true then { hAcc with Uncle1 := hashHex u.hashVal }
          else { hAcc with Uncle2 := hashHex u.hashVal }).Number = hAcc.Number := by
        split <;> rfl
      have hOrp : (if (i == 0) = true then { hAcc with Uncle1 := hashHex u.hashVal }
          else { hAcc with Uncle2 := hashHex u.hashVal }).Orphan = hAcc.Orphan := by
        split <;> rfl
      exact ⟨ha, hb.trans hHash, hc2.trans hNum, hd2.trans hOrp⟩

theorem handleHeader_inv (num : String → Nat) (keccak : List Char → Nat → Nat)
    (client : Client) (hck : ClientOk num client) :
    ∀ (fuel : Nat) (db : DB) (w : WireHeader) (isOrphan : Bool) (ub : String) (db' : DB)
      (hd : Header),
      DBInv num db → WireOk num w →
      handleHeader keccak fuel client db w isOrphan ub = .ok (db', hd) → DBInv num db' := by
  intro fuel
  induction fuel with
  | zero =>
    intro db w isOrphan ub db' hd _ _ hrun
    simp only [handleHeader] at hrun
    cases hrun
  | succ fuel ih =>
    intro db w isOrphan ub db' hd hinv hw hrun
    simp only [handleHeader] at hrun
    split at hrun
    · cases hrun
    · next bl hbl =>
      split at hrun
      · cases hrun
      · next txes htx =>
        split at hrun
        · cases hrun
        · next db1 header1 hup =>
          simp only [Except.ok.injEq, Prod.mk.injEq] at hrun
          obtain ⟨e1, e2⟩ := hrun
          have hpres : ∀ dbx u ubx dbx', DBInv num dbx → WireOk num u →
              (handleHeader keccak fuel client dbx u true ubx).map (fun p => p.1)
                = .ok dbx' → DBInv num dbx' := by
            intro dbx u ubx dbx' hinvx hwx hmap
            cases hres : handleHeader keccak fuel client dbx u true ubx with
            | error e => rw [hres] at hmap; cases hmap
            | ok q =>
              rw [hres] at hmap
              simp only [Except.map, Except.ok.injEq] at hmap
              rw [← hmap]
              exact ih dbx u true ubx q.1 q.2 hinvx hwx (by rw [hres])
          have huncles : ∀ u ∈ bl.uncles, WireOk num u := hck.1 _ bl hbl
          obtain ⟨hinv1, hH, hN, hO⟩ := unclesPass_inv num _ hpres bl.uncles db
            _ 0 db1 header1 hinv huncles hup
          have hproj := appHeader_proj keccak w
          have hnum : header1.Number = num header1.Hash := by
            rw [hN, hH]
            show (appHeader keccak w).Number = num (appHeader keccak w).Hash
            rw [hproj.1, hproj.2.2.2.2.2.2.2.2.1]
            exact hw
          rw [← e1]
          cases isOrphan with
          | true =>
            rw [if_pos rfl]
            exact DBInv_CreateOrUpdate_orphan num db1 header1 _ _ hinv1
              (show header1.Orphan = true from hO) hnum
          | false =>
            rw [if_neg (by simp)]
            exact DBInv_CreateOrUpdate_canon num db1 header1 _ _ hinv1 hnum

theorem sideStep_inv (num : String → Nat) (keccak : List Char → Nat → Nat) (fuel : Nat)
    (client : Client) (hck : ClientOk num client) (s : LoopState) (w : WireHeader)
    (s' : LoopState) (hinv : DBInv num s.db) (hw : WireOk num w)
    (hrun : sideStep keccak fuel client s w = .ok s') : DBInv num s'.db := by
  simp only [sideStep] at hrun
  split at hrun
  · cases hrun
  · next db1 hd1 hh1 =>
    split at hrun
    · cases hrun
    · next canonBlock hbn =>
      split at hrun
      · cases hrun
      · next db2 hd2 hh2 =>
        simp only [Except.ok.injEq] at hrun
        rw [← hrun]
        have hinv1 := handleHeader_inv num keccak client hck fuel s.db w true "" db1 hd1
          hinv hw hh1
        exact handleHeader_inv num keccak client hck fuel db1 canonBlock.header false ""
          db2 hd2 hinv1 (hck.2 _ _ hbn).1 hh2

theorem headStep_inv (num : String → Nat) (keccak : List Char → Nat → Nat) (fuel : Nat)
    (client : Client) (hck : ClientOk num client) (s : LoopState) (w : WireHeader)
    (s' : LoopState) (hinv : DBInv num s.db) (hw : WireOk num w)
    (hrun : headStep keccak fuel client s w = .ok s') : DBInv num s'.db := by
  simp only [headStep] at hrun
  split at hrun
  · simp only [Except.ok.injEq] at hrun
    rw [← hrun]
    exact DBInv_demote num s.db _ _ hinv
  · simp only [headFullProcess] at hrun
    split at hrun
    · cases hrun
    · next db2 hd2 hh2 =>
      simp only [Except.ok.injEq] at hrun
      rw [← hrun]
      exact handleHeader_inv num keccak client hck fuel _ w false "" db2 hd2
        (DBInv_demote num s.db _ _ hinv) hw hh2

theorem trailStep_inv (num : String → Nat) (keccak : List Char → Nat → Nat) (fuel : Nat)
    (client : Client) (hck : ClientOk num client) (s : LoopState) (w : WireHeader)
    (s' : LoopState) (hinv : DBInv num s.db)
    (hrun : trailStep keccak fuel client s w = .ok s') : DBInv num s'.db := by
  simp only [trailStep] at hrun
  split at hrun
  · simp only [Except.ok.injEq] at hrun
    rw [← hrun]
    exact hinv
  · split at hrun
    · split at hrun
      · cases hrun
      · next canonBlock hbn =>
        split at hrun
        · cases hrun
        · next db2 hd2 hh2 =>
          simp only [Except.ok.injEq] at hrun
          rw [← hrun]
          exact handleHeader_inv num keccak client hck fuel s.db canonBlock.header false ""
            db2 hd2 hinv (hck.2 _ _ hbn).1 hh2
    · simp only [Except.ok.injEq] at hrun
      rw [← hrun]
      exact hinv

theorem runEvents_inv (num : String → Nat) (keccak : List Char → Nat → Nat)
    (client : Client) (hck : ClientOk num client) :
    ∀ (evs : List Event) (fuel : Nat) (s s' : LoopState), DBInv num s.db →
      (∀ ev ∈ evs, EventOk num ev) →
      runEvents keccak fuel client s evs = .ok s' → DBInv num s'.db := by
  intro evs
  induction evs with
  | nil =>
    intro fuel s s' hinv _ hrun
    simp only [runEvents, Except.ok.injEq] at hrun
    rw [← hrun]
    exact hinv
  | cons ev evs ihe =>
    intro fuel s s' hinv hevs hrun
    simp only [runEvents] at hrun
    split at hrun
    · cases hrun
    · next s1 hstep =>
      have hinv1 : DBInv num s1.db := by
        cases ev with
        | side w =>
          exact sideStep_inv num keccak fuel client hck s w s1 hinv
            (hevs _ (List.mem_cons_self _ _)) hstep
        | head w =>
          exact headStep_inv num keccak fuel client hck s w s1 hinv
            (hevs _ (List.mem_cons_self _ _)) hstep
        | trail w =>
          exact trailStep_inv num keccak fuel client hck s w s1 hinv hstep
      exact ihe fuel s1 s' hinv1 (fun e he => hevs e (List.mem_cons_of_mem _ he)) hrun

/-! ## Claim C4: at most one canonical row per height -/

/-- C4: (1) for every height `n` and every processed event sequence
(side-head, canonical-head, trailing-check — uncles are processed inside
their citing events), starting from a store satisfying the invariant and
given that the node serves digest-consistent headers, at most one stored
row at height `n` has `orphan = false`; (2) whenever a header is stored
as canonical, every other stored row at its height with a different hash
is orphaned in that same `handleHeader` step. -/
theorem at_most_one_canonical_per_height :
    (∀ (num : String → Nat) (keccak : List Char → Nat → Nat) (client : Client) (fuel : Nat)
        (s s' : LoopState) (evs : List Event),
      ClientOk num client → DBInv num s.db → (∀ ev ∈ evs, EventOk num ev) →
      runEvents keccak fuel client s evs = .ok s' →
      ∀ n, countCanonicalAt s'.db.headers n ≤ 1)
    ∧ (∀ (keccak : List Char → Nat → Nat) (fuel : Nat) (client : Client) (db : DB)
        (w : WireHeader) (db' : DB) (hd : Header),
      handleHeader keccak fuel client db w false "" = .ok (db', hd) →
      ∀ r ∈ db'.headers, r.Number = hd.Number → r.Hash ≠ hd.Hash → r.Orphan = true) := by
  constructor
  · intro num keccak client fuel s s' evs hck hinv hevs hrun n
    exact (runEvents_inv num keccak client hck evs fuel s s' hinv hevs hrun).2.2 n
  · intro keccak fuel client db w db' hd hrun r hr h1 h2
    cases fuel with
    | zero => simp only [handleHeader] at hrun; cases hrun
    | succ fuel =>
      simp only [handleHeader] at hrun
      split at hrun
      · cases hrun
      · split at hrun
        · cases hrun
        · split at hrun
          · cases hrun
          · next db1 header1 hup =>
            simp only [Except.ok.injEq, Prod.mk.injEq] at hrun
            obtain ⟨e1, e2⟩ := hrun
            rw [if_neg (by simp)] at e1
            subst e2
            rw [← e1] at hr
            exact demoteSiblings_demotes _ _ _ r hr h1 h2

/-- Witness for C4 at a concrete run: a side-head event and a
canonical-head event at height 7 leave at most one canonical row at
height 7. -/
theorem at_most_one_canonical_per_height_witness :
    countCanonicalAt (((runEvents keccak0 3 clientC4 stC4 evsC4).toOption.getD stC4)).db.headers 7 ≤ 1 := by
  have hck : ClientOk numC4 clientC4 := by
    constructor
    · intro s bl h
      simp only [clientC4] at h
      split_ifs at h
      · cases h
        intro u hu
        cases hu
      · cases h
        intro u hu
        cases hu
    · intro n bl h
      simp only [clientC4] at h
      split_ifs at h
      · cases h
        refine ⟨by unfold WireOk; decide, ?_⟩
        intro u hu
        cases hu
  have hinv : DBInv numC4 stC4.db :=
    ⟨List.Pairwise.nil, fun r hr => absurd hr (List.not_mem_nil r), fun n => Nat.zero_le 1⟩
  have hevs : ∀ ev ∈ evsC4, EventOk numC4 ev := by
    intro ev he
    rcases List.mem_cons.mp he with h1 | h2
    · subst h1; show WireOk numC4 wC4side; unfold WireOk; decide
    · rcases List.mem_cons.mp h2 with h3 | h4
      · subst h3; show WireOk numC4 wC4canon; unfold WireOk; decide
      · cases h4
  cases hr : runEvents keccak0 3 clientC4 stC4 evsC4 with
  | error e =>
    show countCanonicalAt stC4.db.headers 7 ≤ 1
    exact Nat.zero_le 1
  | ok s' =>
    have h := (at_most_one_canonical_per_height.1 numC4 keccak0 clientC4 3 stC4 s' evsC4
      hck hinv hevs hr) 7
    simpa [Except.toOption, Option.getD] using h
